import Mathlib

/-!
Shallow embedding of the raw-transaction byte decoders of this repository:
  * `SplitVerify` — src/split_and_verify/src/main.rs
  * `V2`          — src/transaction_splitter.v2/src/main.rs
Byte buffers are `List Nat` (each entry a byte value); machine-integer
little-endian reads become explicit `+ 256 * _` arithmetic on `Nat`.
Rust's `hex::encode` of a byte slice and `format!("{:02x}", v)` are modelled
by `hexEncode` and `format02x` below; struct fields that the source stores as
`hex::encode(slice)` are stored as the byte slice itself (that rendering is
injective and append-homomorphic), while fields the source stores as
`format!("{:02x}", v)` are stored as the formatted `String`, because that
formatting is lossy and several claims turn on exactly that.
-/

/-- Rust's `format!("{:02x}", n)`: lowercase hex digits of `n`, left-padded
with a zero to at least two characters. -/
def format02x (n : Nat) : String :=
  let s : String := (Nat.toDigits 16 n).asString
  if s.length = 1 then "0" ++ s else s

/-- Rust's `hex::encode` on a byte slice: two lowercase hex characters per
byte, concatenated. -/
def hexEncode (bs : List Nat) : String :=
  String.join (bs.map format02x)

/-- The byte sub-slice `data[a..b]` (as read by both decoders after a bounds
check has established `b ≤ data.length`). -/
def byteSlice (data : List Nat) (a b : Nat) : List Nat :=
  (data.drop a).take (b - a)

/-- Boolean success test for `Except`. -/
def isOkE {ε α : Type} : Except ε α → Bool
  | .ok _ => true
  | .error _ => false

instance {ε α : Type} [DecidableEq ε] [DecidableEq α] : DecidableEq (Except ε α) := by
  intro x y
  cases x <;> cases y
  case error.error a b =>
    exact if h : a = b then .isTrue (by rw [h]) else .isFalse (fun hh => h (by cases hh; rfl))
  case error.ok a b => exact .isFalse (fun hh => by cases hh)
  case ok.error a b => exact .isFalse (fun hh => by cases hh)
  case ok.ok a b =>
    exact if h : a = b then .isTrue (by rw [h]) else .isFalse (fun hh => h (by cases hh; rfl))

namespace SplitVerify

/-- `Input` struct of split_and_verify (main.rs lines 18-25); byte-slice
fields hold the bytes whose hex encoding the source stores. -/
structure Input where
  txid : List Nat
  vout : List Nat
  scriptsigsize : String
  scriptsig : List Nat
  sequence : List Nat
  deriving DecidableEq, Repr

/-- `Output` struct (lines 27-32). -/
structure Output where
  amount : List Nat
  scriptpubkeysize : String
  scriptpubkey : List Nat
  deriving DecidableEq, Repr

/-- `WitnessItem` struct (lines 40-45). -/
structure WitnessItem where
  index : Nat
  size : String
  item : List Nat
  deriving DecidableEq, Repr

/-- `Witness` struct (lines 34-38). -/
structure Witness where
  stackitems : String
  items : List WitnessItem
  deriving DecidableEq, Repr

/-- `Transaction` struct (lines 5-16). -/
structure Transaction where
  version : List Nat
  marker : Option String
  flag : Option String
  inputcount : String
  inputs : List Input
  outputcount : String
  outputs : List Output
  witness : Option (List Witness)
  locktime : List Nat
  deriving DecidableEq, Repr

/-- `check_remaining` (lines 309-315): fails with "Insufficient data" when
fewer than `needed` bytes remain at `index`. -/
def checkRemaining (data : List Nat) (index needed : Nat) : Except String Unit :=
  if data.length < index + needed then .error "Insufficient data" else .ok ()

/-- `read_segwit_marker` (lines 172-188): peek two bytes; consume them as
marker/flag only when the first is `0x00` and the second is `≥ 0x01`. -/
def readSegwitMarker (data : List Nat) (index : Nat) :
    Except String ((Option String × Option String) × Nat) :=
  match checkRemaining data index 2 with
  | .error _ => .ok ((none, none), index)
  | .ok _ =>
    let marker := data.getD index 0
    let flag := data.getD (index + 1) 0
    if marker = 0 ∧ 1 ≤ flag then
      .ok ((some (format02x marker), some (format02x flag)), index + 2)
    else
      .ok ((none, none), index)

/-- Little-endian value of the `k` bytes starting at `index`: the common
semantics of `u16::from_le_bytes`, `u32::from_le_bytes`, `u64::from_le_bytes`
in `read_compact_size_part` (lines 208-213). -/
def leVal (data : List Nat) : Nat → Nat → Nat
  | _, 0 => 0
  | index, k + 1 => data.getD index 0 + 256 * leVal data (index + 1) k

/-- `read_compact_size_part` (lines 203-214). -/
def readCompactSizePart (data : List Nat) (index bytes : Nat) :
    Except String (Nat × Nat) :=
  match checkRemaining data index bytes with
  | .error e => .error e
  | .ok _ => .ok (leVal data index bytes, index + bytes)

/-- `read_compact_size` (lines 190-201): returns the decoded value and the
new cursor position. -/
def readCompactSize (data : List Nat) (index : Nat) : Except String (Nat × Nat) :=
  match checkRemaining data index 1 with
  | .error e => .error e
  | .ok _ =>
    let first := data.getD index 0
    if first ≤ 0xfc then .ok (first, index + 1)
    else if first = 0xfd then readCompactSizePart data (index + 1) 2
    else if first = 0xfe then readCompactSizePart data (index + 1) 4
    else readCompactSizePart data (index + 1) 8

/-- `read_input` (lines 216-252). -/
def readInput (data : List Nat) (i0 : Nat) : Except String (Input × Nat) :=
  match checkRemaining data i0 32 with
  | .error e => .error e
  | .ok _ =>
    match checkRemaining data (i0 + 32) 4 with
    | .error e => .error e
    | .ok _ =>
      match readCompactSize data (i0 + 32 + 4) with
      | .error e => .error e
      | .ok (ssz, i3) =>
        match checkRemaining data i3 ssz with
        | .error e => .error e
        | .ok _ =>
          match checkRemaining data (i3 + ssz) 4 with
          | .error e => .error e
          | .ok _ =>
            .ok ({ txid := byteSlice data i0 (i0 + 32),
                   vout := byteSlice data (i0 + 32) (i0 + 32 + 4),
                   scriptsigsize := format02x ssz,
                   scriptsig := if 0 < ssz then byteSlice data i3 (i3 + ssz) else [],
                   sequence := byteSlice data (i3 + ssz) (i3 + ssz + 4) },
                 i3 + ssz + 4)

/-- `read_output` (lines 254-274). -/
def readOutput (data : List Nat) (i0 : Nat) : Except String (Output × Nat) :=
  match checkRemaining data i0 8 with
  | .error e => .error e
  | .ok _ =>
    match readCompactSize data (i0 + 8) with
    | .error e => .error e
    | .ok (psz, i2) =>
      match checkRemaining data i2 psz with
      | .error e => .error e
      | .ok _ =>
        .ok ({ amount := byteSlice data i0 (i0 + 8),
               scriptpubkeysize := format02x psz,
               scriptpubkey := byteSlice data i2 (i2 + psz) },
             i2 + psz)

/-- The `for _ in 0..input_count` loop of `Transaction::parse` (lines 70-73),
as a recursion on the remaining count. -/
def readInputs (data : List Nat) : Nat → Nat → Except String (List Input × Nat)
  | 0, i => .ok ([], i)
  | n + 1, i =>
    match readInput data i with
    | .error e => .error e
    | .ok (inp, i') =>
      match readInputs data n i' with
      | .error e => .error e
      | .ok (rest, i'') => .ok (inp :: rest, i'')

/-- The output loop of `Transaction::parse` (lines 79-82). -/
def readOutputs (data : List Nat) : Nat → Nat → Except String (List Output × Nat)
  | 0, i => .ok ([], i)
  | n + 1, i =>
    match readOutput data i with
    | .error e => .error e
    | .ok (out, i') =>
      match readOutputs data n i' with
      | .error e => .error e
      | .ok (rest, i'') => .ok (out :: rest, i'')

/-- The inner item loop of `read_witnesses` (lines 285-298); `idx` is the
running loop counter stored in `WitnessItem.index`. -/
def readWitnessItems (data : List Nat) : Nat → Nat → Nat →
    Except String (List WitnessItem × Nat)
  | 0, _, i => .ok ([], i)
  | n + 1, idx, i =>
    match readCompactSize data i with
    | .error e => .error e
    | .ok (isz, i') =>
      match checkRemaining data i' isz with
      | .error e => .error e
      | .ok _ =>
        match readWitnessItems data n (idx + 1) (i' + isz) with
        | .error e => .error e
        | .ok (rest, i'') =>
          .ok ({ index := idx, size := format02x isz,
                 item := byteSlice data i' (i' + isz) } :: rest, i'')

/-- One iteration of the outer loop of `read_witnesses` (lines 279-304): the
stack-item count is read with the fully general `read_compact_size`. -/
def readWitnessStack (data : List Nat) (i : Nat) : Except String (Witness × Nat) :=
  match readCompactSize data i with
  | .error e => .error e
  | .ok (stackItems, i') =>
    match readWitnessItems data stackItems 0 i' with
    | .error e => .error e
    | .ok (items, i'') =>
      .ok ({ stackitems := format02x stackItems, items := items }, i'')

/-- `read_witnesses` (lines 276-307): one stack per input. -/
def readWitnesses (data : List Nat) : Nat → Nat → Except String (List Witness × Nat)
  | 0, i => .ok ([], i)
  | n + 1, i =>
    match readWitnessStack data i with
    | .error e => .error e
    | .ok (w, i') =>
      match readWitnesses data n i' with
      | .error e => .error e
      | .ok (rest, i'') => .ok (w :: rest, i'')

/-- `Transaction::parse` (lines 55-111) up to but not including the final
trailing-data comparison; returns the assembled transaction together with
the final cursor position (the source's `index` right before line 96). -/
def parseCore (raw : List Nat) : Except String (Transaction × Nat) :=
  match checkRemaining raw 0 4 with
  | .error e => .error e
  | .ok _ =>
    match readSegwitMarker raw 4 with
    | .error e => .error e
    | .ok ((marker, flag), i1) =>
      match readCompactSize raw i1 with
      | .error e => .error e
      | .ok (inputCount, i2) =>
        match readInputs raw inputCount i2 with
        | .error e => .error e
        | .ok (inputs, i3) =>
          match readCompactSize raw i3 with
          | .error e => .error e
          | .ok (outputCount, i4) =>
            match readOutputs raw outputCount i4 with
            | .error e => .error e
            | .ok (outputs, i5) =>
              match (match marker with
                     | some _ =>
                       match readWitnesses raw inputCount i5 with
                       | .error e => .error e
                       | .ok (ws, i6) => .ok (some ws, i6)
                     | none =>
                       .ok (none, i5) : Except String (Option (List Witness) × Nat)) with
              | .error e => .error e
              | .ok (witness, i6) =>
                match checkRemaining raw i6 4 with
                | .error e => .error e
                | .ok _ =>
                  .ok ({ version := byteSlice raw 0 4,
                         marker := marker, flag := flag,
                         inputcount := format02x inputCount,
                         inputs := inputs,
                         outputcount := format02x outputCount,
                         outputs := outputs,
                         witness := witness,
                         locktime := byteSlice raw i6 (i6 + 4) },
                       i6 + 4)

/-- `Transaction::parse` (lines 55-111) including the final check at lines
96-98: any unconsumed bytes yield "Extra data after transaction". -/
def parse (raw : List Nat) : Except String Transaction :=
  match parseCore raw with
  | .error e => .error e
  | .ok (tx, i) =>
    if i ≠ raw.length then .error "Extra data after transaction" else .ok tx

end SplitVerify

namespace V2

/-- Failure modes of `parse_raw_components` in transaction_splitter.v2:
either a propagated `Box<dyn Error>` message (`err`) or a Rust runtime panic
(`panic`) from an unchecked slice/index going out of bounds. -/
inductive V2Error where
  | err (msg : String)
  | panic
  deriving DecidableEq, Repr

/-- Model of the unchecked Rust slice `&bytes[a..b]`: panics when `b`
exceeds the buffer length (all call sites have `a ≤ b`). -/
def sliceE (bytes : List Nat) (a b : Nat) : Except V2Error (List Nat) :=
  if b ≤ bytes.length then .ok (byteSlice bytes a b) else .error .panic

/-- Model of the unchecked Rust index `bytes[i]`: panics when out of range. -/
def byteAtE (bytes : List Nat) (i : Nat) : Except V2Error Nat :=
  if i < bytes.length then .ok (bytes.getD i 0) else .error .panic

/-- `RawInput` struct (main.rs lines 46-53); `txid` holds the bytes the
source hex-encodes, i.e. the wire bytes already reversed (line 162). -/
structure RawInput where
  txid : List Nat
  vout : List Nat
  scriptsig_size : List Nat
  scriptsig : List Nat
  sequence : List Nat
  deriving DecidableEq, Repr

/-- `RawOutput` struct (lines 55-60). -/
structure RawOutput where
  amount : List Nat
  scriptpubkey_size : List Nat
  scriptpubkey : List Nat
  deriving DecidableEq, Repr

/-- `RawWitnessItem` struct (lines 68-72); `size` is formatted from the
decoded value (line 235), not the raw encoding. -/
structure RawWitnessItem where
  size : String
  item : List Nat
  deriving DecidableEq, Repr

/-- `RawWitness` struct (lines 62-66). -/
structure RawWitness where
  stack_items : String
  items : List RawWitnessItem
  deriving DecidableEq, Repr

/-- `RawTransactionComponents` struct (lines 33-44). -/
structure RawTransactionComponents where
  version : List Nat
  marker : Option String
  flag : Option String
  input_count : List Nat
  inputs : List RawInput
  output_count : List Nat
  outputs : List RawOutput
  witness : List RawWitness
  lock_time : List Nat
  deriving DecidableEq, Repr

/-- `read_varint` (lines 315-354): returns the decoded value and the number
of bytes the encoding occupies (1, 3, 5, or 9). -/
def readVarint (bytes : List Nat) (offset : Nat) : Except V2Error (Nat × Nat) :=
  if bytes.length ≤ offset then .error (.err "Offset out of bounds")
  else
    let first := bytes.getD offset 0
    if first ≤ 0xfc then .ok (first, 1)
    else if first = 0xfd then
      if bytes.length < offset + 3 then .error (.err "Not enough bytes for varint")
      else .ok (bytes.getD (offset + 1) 0 + 256 * bytes.getD (offset + 2) 0, 3)
    else if first = 0xfe then
      if bytes.length < offset + 5 then .error (.err "Not enough bytes for varint")
      else .ok (bytes.getD (offset + 1) 0 + 256 * bytes.getD (offset + 2) 0
                + 65536 * bytes.getD (offset + 3) 0 + 16777216 * bytes.getD (offset + 4) 0, 5)
    else
      if bytes.length < offset + 9 then .error (.err "Not enough bytes for varint")
      else .ok (bytes.getD (offset + 1) 0 + 256 * bytes.getD (offset + 2) 0
                + 65536 * bytes.getD (offset + 3) 0 + 16777216 * bytes.getD (offset + 4) 0
                + 4294967296 * bytes.getD (offset + 5) 0 + 1099511627776 * bytes.getD (offset + 6) 0
                + 281474976710656 * bytes.getD (offset + 7) 0
                + 72057594037927936 * bytes.getD (offset + 8) 0, 9)

/-- One input of the input loop of `parse_raw_components` (lines 159-194).
The wire txid bytes are reversed before being stored (line 162). -/
def readInputV2 (bytes : List Nat) (c0 : Nat) : Except V2Error (RawInput × Nat) :=
  match sliceE bytes c0 (c0 + 32) with
  | .error e => .error e
  | .ok txidBytes =>
    match sliceE bytes (c0 + 32) (c0 + 36) with
    | .error e => .error e
    | .ok vout =>
      match readVarint bytes (c0 + 36) with
      | .error e => .error e
      | .ok (sLen, sLenBytes) =>
        match sliceE bytes (c0 + 36) (c0 + 36 + sLenBytes) with
        | .error e => .error e
        | .ok sSize =>
          match (if 0 < sLen then
                   sliceE bytes (c0 + 36 + sLenBytes) (c0 + 36 + sLenBytes + sLen)
                 else .ok []) with
          | .error e => .error e
          | .ok sSig =>
            match sliceE bytes (c0 + 36 + sLenBytes + sLen) (c0 + 36 + sLenBytes + sLen + 4) with
            | .error e => .error e
            | .ok seqB =>
              .ok ({ txid := txidBytes.reverse, vout := vout,
                     scriptsig_size := sSize, scriptsig := sSig, sequence := seqB },
                   c0 + 36 + sLenBytes + sLen + 4)

/-- The input loop of `parse_raw_components` (lines 158-194). -/
def readInputsV2 (bytes : List Nat) : Nat → Nat → Except V2Error (List RawInput × Nat)
  | 0, c => .ok ([], c)
  | n + 1, c =>
    match readInputV2 bytes c with
    | .error e => .error e
    | .ok (inp, c') =>
      match readInputsV2 bytes n c' with
      | .error e => .error e
      | .ok (rest, c'') => .ok (inp :: rest, c'')

/-- One output of the output loop of `parse_raw_components` (lines 203-222). -/
def readOutputV2 (bytes : List Nat) (c0 : Nat) : Except V2Error (RawOutput × Nat) :=
  match sliceE bytes c0 (c0 + 8) with
  | .error e => .error e
  | .ok amount =>
    match readVarint bytes (c0 + 8) with
    | .error e => .error e
    | .ok (pLen, pLenBytes) =>
      match sliceE bytes (c0 + 8) (c0 + 8 + pLenBytes) with
      | .error e => .error e
      | .ok pSize =>
        match sliceE bytes (c0 + 8 + pLenBytes) (c0 + 8 + pLenBytes + pLen) with
        | .error e => .error e
        | .ok pk =>
          .ok ({ amount := amount, scriptpubkey_size := pSize, scriptpubkey := pk },
               c0 + 8 + pLenBytes + pLen)

/-- The output loop of `parse_raw_components` (lines 202-222). -/
def readOutputsV2 (bytes : List Nat) : Nat → Nat → Except V2Error (List RawOutput × Nat)
  | 0, c => .ok ([], c)
  | n + 1, c =>
    match readOutputV2 bytes c with
    | .error e => .error e
    | .ok (out, c') =>
      match readOutputsV2 bytes n c' with
      | .error e => .error e
      | .ok (rest, c'') => .ok (out :: rest, c'')

/-- The witness item loop (lines 232-242). -/
def readWitnessItemsV2 (bytes : List Nat) : Nat → Nat → Except V2Error (List RawWitnessItem × Nat)
  | 0, c => .ok ([], c)
  | n + 1, c =>
    match readVarint bytes c with
    | .error e => .error e
    | .ok (itemLen, itemLenBytes) =>
      match sliceE bytes (c + itemLenBytes) (c + itemLenBytes + itemLen) with
      | .error e => .error e
      | .ok item =>
        match readWitnessItemsV2 bytes n (c + itemLenBytes + itemLen) with
        | .error e => .error e
        | .ok (rest, c'') =>
          .ok ({ size := format02x itemLen, item := item } :: rest, c'')

/-- One per-input witness stack (lines 228-244). The stack-item count is
decoded by the general `read_varint`, but the cursor is then advanced by a
hardcoded single byte: `cursor += 1; // Assuming single byte for stack items
count` (line 230), discarding the decoded width. -/
def readWitnessStackV2 (bytes : List Nat) (c0 : Nat) : Except V2Error (RawWitness × Nat) :=
  match readVarint bytes c0 with
  | .error e => .error e
  | .ok (stackItemsCount, _) =>
    match readWitnessItemsV2 bytes stackItemsCount (c0 + 1) with
    | .error e => .error e
    | .ok (items, c'') =>
      .ok ({ stack_items := format02x stackItemsCount, items := items }, c'')

/-- The per-input witness loop of `parse_raw_components` (lines 227-245). -/
def readWitnessesV2 (bytes : List Nat) : Nat → Nat → Except V2Error (List RawWitness × Nat)
  | 0, c => .ok ([], c)
  | n + 1, c =>
    match readWitnessStackV2 bytes c with
    | .error e => .error e
    | .ok (w, c') =>
      match readWitnessesV2 bytes n c' with
      | .error e => .error e
      | .ok (rest, c'') => .ok (w :: rest, c'')

/-- The marker/flag branch of `parse_raw_components` (lines 140-150): when
the byte after the version (`b4`) is 0x00 the transaction is assumed to be
witness-carrying — the flag byte at position 5 is read (unchecked index)
and both bytes are consumed; otherwise nothing is consumed. -/
def readMarkerV2 (bytes : List Nat) (b4 : Nat) :
    Except V2Error ((Option String × Option String) × Nat) :=
  if b4 = 0 then
    match byteAtE bytes 5 with
    | .error e => .error e
    | .ok b5 => .ok ((some (format02x b4), some (format02x b5)), 6)
  else .ok ((none, none), 4)

/-- `parse_raw_components` (lines 130-262) on the already hex-decoded byte
buffer, returning the components together with the final cursor position
(the cursor right after the 4 lock-time bytes). The witness/legacy decision
is `has_witness = bytes[cursor] == 0x00` (line 143) — the flag byte is not
inspected — and there is no trailing-data check after lock_time. -/
def parseRawComponentsCore (bytes : List Nat) : Except V2Error (RawTransactionComponents × Nat) :=
  match sliceE bytes 0 4 with
  | .error e => .error e
  | .ok version =>
    match byteAtE bytes 4 with
    | .error e => .error e
    | .ok b4 =>
      match readMarkerV2 bytes b4 with
      | .error e => .error e
      | .ok ((marker, flag), c1) =>
        match readVarint bytes c1 with
        | .error e => .error e
        | .ok (inputCountVal, inputCountBytes) =>
          match sliceE bytes c1 (c1 + inputCountBytes) with
          | .error e => .error e
          | .ok inputCountRaw =>
            match readInputsV2 bytes inputCountVal (c1 + inputCountBytes) with
            | .error e => .error e
            | .ok (inputs, c2) =>
              match readVarint bytes c2 with
              | .error e => .error e
              | .ok (outputCountVal, outputCountBytes) =>
                match sliceE bytes c2 (c2 + outputCountBytes) with
                | .error e => .error e
                | .ok outputCountRaw =>
                  match readOutputsV2 bytes outputCountVal (c2 + outputCountBytes) with
                  | .error e => .error e
                  | .ok (outputs, c3) =>
                    match (if b4 = 0 then readWitnessesV2 bytes inputCountVal c3
                           else .ok ([], c3)) with
                    | .error e => .error e
                    | .ok (witness, c4) =>
                      match sliceE bytes c4 (c4 + 4) with
                      | .error e => .error e
                      | .ok lockTime =>
                        .ok ({ version := version, marker := marker, flag := flag,
                               input_count := inputCountRaw, inputs := inputs,
                               output_count := outputCountRaw, outputs := outputs,
                               witness := witness, lock_time := lockTime },
                             c4 + 4)

/-- `parse_raw_components` as the source returns it (components only). -/
def parseRawComponents (bytes : List Nat) : Except V2Error RawTransactionComponents :=
  match parseRawComponentsCore bytes with
  | .error e => .error e
  | .ok (comps, _) => .ok comps

end V2

/-- Modelled from the spec: the canonical CompactSize encoding of §4.2 /
§8 ("canonical encodings"), used to state width-generality properties. -/
def encodeCompactSize (n : Nat) : List Nat :=
  if n ≤ 0xfc then [n]
  else if n ≤ 0xffff then [0xfd, n % 256, n / 256]
  else if n ≤ 0xffffffff then
    [0xfe, n % 256, n / 256 % 256, n / 65536 % 256, n / 16777216]
  else
    [0xff, n % 256, n / 256 % 256, n / 65536 % 256, n / 16777216 % 256,
     n / 4294967296 % 256, n / 1099511627776 % 256, n / 281474976710656 % 256,
     n / 72057594037927936]

/-- Modelled from the spec: re-encoding one decoded split_and_verify input
"back into the same positional order" (§8), at the hex-string level at which
that decoder stores its fields. -/
def svReencodeInput (inp : SplitVerify.Input) : String :=
  hexEncode inp.txid ++ hexEncode inp.vout ++ inp.scriptsigsize
    ++ hexEncode inp.scriptsig ++ hexEncode inp.sequence

/-- Modelled from the spec: re-encoding one decoded split_and_verify output
positionally (§8). -/
def svReencodeOutput (out : SplitVerify.Output) : String :=
  hexEncode out.amount ++ out.scriptpubkeysize ++ hexEncode out.scriptpubkey

/-- Modelled from the spec: positional re-encoding (§8) of a legacy
split_and_verify transaction from its stored fields. -/
def svReencodeLegacy (tx : SplitVerify.Transaction) : String :=
  hexEncode tx.version ++ tx.inputcount
    ++ String.join (tx.inputs.map svReencodeInput)
    ++ tx.outputcount ++ String.join (tx.outputs.map svReencodeOutput)
    ++ hexEncode tx.locktime

/-- Modelled from the spec: re-encoding one decoded v2 input positionally
(§8); the displayed txid is reversed back to wire order. -/
def v2ReencodeInput (inp : V2.RawInput) : List Nat :=
  inp.txid.reverse ++ inp.vout ++ inp.scriptsig_size ++ inp.scriptsig ++ inp.sequence

/-- Modelled from the spec: re-encoding one decoded v2 output positionally
(§8). -/
def v2ReencodeOutput (out : V2.RawOutput) : List Nat :=
  out.amount ++ out.scriptpubkey_size ++ out.scriptpubkey

/-- Modelled from the spec: positional re-encoding (§8) of a legacy v2
component structure. -/
def v2ReencodeLegacy (comps : V2.RawTransactionComponents) : List Nat :=
  comps.version ++ comps.input_count
    ++ (comps.inputs.map v2ReencodeInput).flatten
    ++ comps.output_count ++ (comps.outputs.map v2ReencodeOutput).flatten
    ++ comps.lock_time

/-- A minimal well-formed legacy buffer: version, zero inputs, zero outputs,
locktime (10 bytes). -/
def txMinimal : List Nat := [1, 0, 0, 0, 0, 0, 0, 0, 0, 0]

/-- A well-formed 51-byte legacy transaction: one input (txid bytes
0,1,…,31, empty script), zero outputs. -/
def txLegacy : List Nat :=
  [1, 0, 0, 0, 1] ++ List.range 32 ++ [0, 0, 0, 0] ++ [0]
    ++ [255, 255, 255, 255] ++ [0] ++ [0, 0, 0, 0]

/-- A well-formed 54-byte witness-carrying transaction: marker 0x00, flag
0x01, one input, zero outputs, one empty witness stack. -/
def txSegwit : List Nat :=
  [1, 0, 0, 0, 0, 1, 1] ++ List.range 32 ++ [0, 0, 0, 0] ++ [0]
    ++ [255, 255, 255, 255] ++ [0] ++ [0] ++ [0, 0, 0, 0]

/-- The same 54 bytes as `txSegwit` but with flag byte 0x00: the byte after
the version is 0x00 and the byte following it is 0x00. -/
def txAmbiguous : List Nat :=
  [1, 0, 0, 0, 0, 0, 1] ++ List.range 32 ++ [0, 0, 0, 0] ++ [0]
    ++ [255, 255, 255, 255] ++ [0] ++ [0] ++ [0, 0, 0, 0]

/-- A well-formed 58-byte legacy transaction whose scriptsig length 5 is
encoded with the 3-byte CompactSize `fd 05 00`. -/
def txWideSize : List Nat :=
  [1, 0, 0, 0, 1] ++ List.range 32 ++ [0, 0, 0, 0] ++ [0xfd, 5, 0]
    ++ [9, 9, 9, 9, 9] ++ [255, 255, 255, 255] ++ [0] ++ [0, 0, 0, 0]

/-- A witness-stack byte fragment whose stack-item count 1 is encoded with
the 3-byte CompactSize `fd 01 00`, followed by one item of length 2. -/
def witnessCountWide : List Nat := [0xfd, 1, 0, 2, 170, 187]

/-- The components `parse_raw_components` produces for `txLegacy`. -/
def txLegacyComps : V2.RawTransactionComponents :=
  { version := [1, 0, 0, 0], marker := none, flag := none,
    input_count := [1],
    inputs := [{ txid := (List.range 32).reverse, vout := [0, 0, 0, 0],
                 scriptsig_size := [0], scriptsig := [],
                 sequence := [255, 255, 255, 255] }],
    output_count := [0], outputs := [], witness := [],
    lock_time := [0, 0, 0, 0] }

/-- The input value split_and_verify decodes from `txLegacy` at cursor 5. -/
def svInputSample : SplitVerify.Input :=
  { txid := List.range 32, vout := [0, 0, 0, 0], scriptsigsize := "00",
    scriptsig := [], sequence := [255, 255, 255, 255] }

/-- The input value transaction_splitter.v2 decodes from `txLegacy` at
cursor 5. -/
def v2InputSample : V2.RawInput :=
  { txid := (List.range 32).reverse, vout := [0, 0, 0, 0],
    scriptsig_size := [0], scriptsig := [], sequence := [255, 255, 255, 255] }

/-- The transaction split_and_verify decodes from `txMinimal`. -/
def txMinimalDecoded : SplitVerify.Transaction :=
  { version := [1, 0, 0, 0], marker := none, flag := none,
    inputcount := "00", inputs := [], outputcount := "00", outputs := [],
    witness := none, locktime := [0, 0, 0, 0] }

/-- The transaction split_and_verify decodes from `txSegwit`. -/
def txSegwitDecoded : SplitVerify.Transaction :=
  { version := [1, 0, 0, 0], marker := some "00", flag := some "01",
    inputcount := "01",
    inputs := [{ txid := List.range 32, vout := [0, 0, 0, 0],
                 scriptsigsize := "00", scriptsig := [],
                 sequence := [255, 255, 255, 255] }],
    outputcount := "00", outputs := [],
    witness := some [{ stackitems := "00", items := [] }],
    locktime := [0, 0, 0, 0] }

theorem byteSlice_split (data : List Nat) {a b c : Nat} (hab : a ≤ b) (hbc : b ≤ c) :
    byteSlice data a b ++ byteSlice data b c = byteSlice data a c := by
  unfold byteSlice
  have h1 : c - a = (b - a) + (c - b) := by omega
  have h2 : a + (b - a) = b := by omega
  rw [h1, List.take_add, List.drop_drop, h2]

theorem byteSlice_refl (data : List Nat) (a : Nat) : byteSlice data a a = [] := by
  simp [byteSlice]

theorem byteSlice_all (data : List Nat) : byteSlice data 0 data.length = data := by
  simp [byteSlice]

theorem byteSlice_append (data extra : List Nat) {a b : Nat} (hab : a ≤ b)
    (hb : b ≤ data.length) : byteSlice (data ++ extra) a b = byteSlice data a b := by
  unfold byteSlice
  rw [List.drop_append_of_le_length (le_trans hab hb)]
  exact List.take_append_of_le_length (by rw [List.length_drop]; omega)

theorem checkRemaining_ok_iff {data : List Nat} {i n : Nat} :
    SplitVerify.checkRemaining data i n = .ok () ↔ i + n ≤ data.length := by
  unfold SplitVerify.checkRemaining
  by_cases hc : data.length < i + n
  · rw [if_pos hc]; simp; omega
  · rw [if_neg hc]; simp; omega

theorem checkRemaining_ok_bound {data : List Nat} {i n : Nat} {u : Unit}
    (h : SplitVerify.checkRemaining data i n = .ok u) : i + n ≤ data.length := by
  cases u; exact checkRemaining_ok_iff.mp h

theorem getD_concat (pre l : List Nat) (k : Nat) :
    (pre ++ l).getD (pre.length + k) 0 = l.getD k 0 := by
  induction pre with
  | nil => simp
  | cons a t ih =>
    have he : (a :: t).length + k = (t.length + k) + 1 := by
      simp [List.length_cons]; omega
    rw [List.cons_append, he, List.getD_cons_succ]
    exact ih


theorem readCompactSize_case_fc (pre : List Nat) (b : Nat) (post : List Nat) (hb : b ≤ 0xfc) :
    SplitVerify.readCompactSize (pre ++ b :: post) pre.length = .ok (b, pre.length + 1) := by
  have hc : SplitVerify.checkRemaining (pre ++ b :: post) pre.length 1 = .ok () :=
    checkRemaining_ok_iff.mpr (by simp only [List.length_append, List.length_cons]; omega)
  have hg : (pre ++ b :: post).getD pre.length 0 = b := by
    simpa using getD_concat pre (b :: post) 0
  simp only [SplitVerify.readCompactSize, hc, hg]
  rw [if_pos hb]

theorem readCompactSize_case_fd (pre : List Nat) (b0 b1 : Nat) (post : List Nat) :
    SplitVerify.readCompactSize (pre ++ 0xfd :: b0 :: b1 :: post) pre.length
      = .ok (b0 + 256 * b1, pre.length + 3) := by
  have hc : SplitVerify.checkRemaining (pre ++ 0xfd :: b0 :: b1 :: post) pre.length 1 = .ok () :=
    checkRemaining_ok_iff.mpr (by simp only [List.length_append, List.length_cons]; omega)
  have hc2 : SplitVerify.checkRemaining (pre ++ 0xfd :: b0 :: b1 :: post) (pre.length + 1) 2
      = .ok () :=
    checkRemaining_ok_iff.mpr (by simp only [List.length_append, List.length_cons]; omega)
  have hg : (pre ++ 0xfd :: b0 :: b1 :: post).getD pre.length 0 = 0xfd := by
    simpa using getD_concat pre (0xfd :: b0 :: b1 :: post) 0
  have hg0 : (pre ++ 0xfd :: b0 :: b1 :: post).getD (pre.length + 1) 0 = b0 := by
    simpa using getD_concat pre (0xfd :: b0 :: b1 :: post) 1
  have hg1 : (pre ++ 0xfd :: b0 :: b1 :: post).getD (pre.length + 2) 0 = b1 := by
    simpa using getD_concat pre (0xfd :: b0 :: b1 :: post) 2
  have hl : SplitVerify.leVal (pre ++ 0xfd :: b0 :: b1 :: post) (pre.length + 1) 2
      = b0 + 256 * b1 := by
    have e : SplitVerify.leVal (pre ++ 0xfd :: b0 :: b1 :: post) (pre.length + 1) 2
        = (pre ++ 0xfd :: b0 :: b1 :: post).getD (pre.length + 1) 0
          + 256 * ((pre ++ 0xfd :: b0 :: b1 :: post).getD (pre.length + 2) 0 + 256 * 0) := rfl
    rw [e, hg0, hg1]; ring
  simp only [SplitVerify.readCompactSize, hc, hg]
  norm_num
  simp only [SplitVerify.readCompactSizePart, hc2, hl]

theorem readCompactSize_case_fe (pre : List Nat) (b0 b1 b2 b3 : Nat) (post : List Nat) :
    SplitVerify.readCompactSize (pre ++ 0xfe :: b0 :: b1 :: b2 :: b3 :: post) pre.length
      = .ok (b0 + 256 * (b1 + 256 * (b2 + 256 * b3)), pre.length + 5) := by
  have hc : SplitVerify.checkRemaining (pre ++ 0xfe :: b0 :: b1 :: b2 :: b3 :: post)
      pre.length 1 = .ok () :=
    checkRemaining_ok_iff.mpr (by simp only [List.length_append, List.length_cons]; omega)
  have hc2 : SplitVerify.checkRemaining (pre ++ 0xfe :: b0 :: b1 :: b2 :: b3 :: post)
      (pre.length + 1) 4 = .ok () :=
    checkRemaining_ok_iff.mpr (by simp only [List.length_append, List.length_cons]; omega)
  have hg : (pre ++ 0xfe :: b0 :: b1 :: b2 :: b3 :: post).getD pre.length 0 = 0xfe := by
    simpa using getD_concat pre (0xfe :: b0 :: b1 :: b2 :: b3 :: post) 0
  have hg0 : (pre ++ 0xfe :: b0 :: b1 :: b2 :: b3 :: post).getD (pre.length + 1) 0 = b0 := by
    simpa using getD_concat pre (0xfe :: b0 :: b1 :: b2 :: b3 :: post) 1
  have hg1 : (pre ++ 0xfe :: b0 :: b1 :: b2 :: b3 :: post).getD (pre.length + 2) 0 = b1 := by
    simpa using getD_concat pre (0xfe :: b0 :: b1 :: b2 :: b3 :: post) 2
  have hg2 : (pre ++ 0xfe :: b0 :: b1 :: b2 :: b3 :: post).getD (pre.length + 3) 0 = b2 := by
    simpa using getD_concat pre (0xfe :: b0 :: b1 :: b2 :: b3 :: post) 3
  have hg3 : (pre ++ 0xfe :: b0 :: b1 :: b2 :: b3 :: post).getD (pre.length + 4) 0 = b3 := by
    simpa using getD_concat pre (0xfe :: b0 :: b1 :: b2 :: b3 :: post) 4
  have hl : SplitVerify.leVal (pre ++ 0xfe :: b0 :: b1 :: b2 :: b3 :: post) (pre.length + 1) 4
      = b0 + 256 * (b1 + 256 * (b2 + 256 * b3)) := by
    have e : SplitVerify.leVal (pre ++ 0xfe :: b0 :: b1 :: b2 :: b3 :: post) (pre.length + 1) 4
        = (pre ++ 0xfe :: b0 :: b1 :: b2 :: b3 :: post).getD (pre.length + 1) 0
          + 256 * ((pre ++ 0xfe :: b0 :: b1 :: b2 :: b3 :: post).getD (pre.length + 2) 0
          + 256 * ((pre ++ 0xfe :: b0 :: b1 :: b2 :: b3 :: post).getD (pre.length + 3) 0
          + 256 * ((pre ++ 0xfe :: b0 :: b1 :: b2 :: b3 :: post).getD (pre.length + 4) 0
          + 256 * 0))) := rfl
    rw [e, hg0, hg1, hg2, hg3]; ring
  simp only [SplitVerify.readCompactSize, hc, hg]
  norm_num
  simp only [SplitVerify.readCompactSizePart, hc2, hl]

theorem readCompactSize_case_ff (pre : List Nat) (b0 b1 b2 b3 b4 b5 b6 b7 : Nat)
    (post : List Nat) :
    SplitVerify.readCompactSize
        (pre ++ 0xff :: b0 :: b1 :: b2 :: b3 :: b4 :: b5 :: b6 :: b7 :: post) pre.length
      = .ok (b0 + 256 * (b1 + 256 * (b2 + 256 * (b3 + 256 * (b4 + 256 *
               (b5 + 256 * (b6 + 256 * b7)))))), pre.length + 9) := by
  have hc : SplitVerify.checkRemaining
      (pre ++ 0xff :: b0 :: b1 :: b2 :: b3 :: b4 :: b5 :: b6 :: b7 :: post)
      pre.length 1 = .ok () :=
    checkRemaining_ok_iff.mpr (by simp only [List.length_append, List.length_cons]; omega)
  have hc2 : SplitVerify.checkRemaining
      (pre ++ 0xff :: b0 :: b1 :: b2 :: b3 :: b4 :: b5 :: b6 :: b7 :: post)
      (pre.length + 1) 8 = .ok () :=
    checkRemaining_ok_iff.mpr (by simp only [List.length_append, List.length_cons]; omega)
  have hg : (pre ++ 0xff :: b0 :: b1 :: b2 :: b3 :: b4 :: b5 :: b6 :: b7 :: post).getD
      pre.length 0 = 0xff := by
    simpa using getD_concat pre (0xff :: b0 :: b1 :: b2 :: b3 :: b4 :: b5 :: b6 :: b7 :: post) 0
  have hgk : ∀ k, (pre ++ 0xff :: b0 :: b1 :: b2 :: b3 :: b4 :: b5 :: b6 :: b7 :: post).getD
      (pre.length + (k + 1)) 0
      = (b0 :: b1 :: b2 :: b3 :: b4 :: b5 :: b6 :: b7 :: post).getD k 0 := by
    intro k
    simpa [List.getD_cons_succ] using
      getD_concat pre (0xff :: b0 :: b1 :: b2 :: b3 :: b4 :: b5 :: b6 :: b7 :: post) (k + 1)
  have hl : SplitVerify.leVal
      (pre ++ 0xff :: b0 :: b1 :: b2 :: b3 :: b4 :: b5 :: b6 :: b7 :: post) (pre.length + 1) 8
      = b0 + 256 * (b1 + 256 * (b2 + 256 * (b3 + 256 * (b4 + 256 *
          (b5 + 256 * (b6 + 256 * b7)))))) := by
    have e : SplitVerify.leVal
        (pre ++ 0xff :: b0 :: b1 :: b2 :: b3 :: b4 :: b5 :: b6 :: b7 :: post)
        (pre.length + 1) 8
        = (pre ++ 0xff :: b0 :: b1 :: b2 :: b3 :: b4 :: b5 :: b6 :: b7 :: post).getD
            (pre.length + 1) 0
          + 256 * ((pre ++ 0xff :: b0 :: b1 :: b2 :: b3 :: b4 :: b5 :: b6 :: b7 :: post).getD
            (pre.length + 2) 0
          + 256 * ((pre ++ 0xff :: b0 :: b1 :: b2 :: b3 :: b4 :: b5 :: b6 :: b7 :: post).getD
            (pre.length + 3) 0
          + 256 * ((pre ++ 0xff :: b0 :: b1 :: b2 :: b3 :: b4 :: b5 :: b6 :: b7 :: post).getD
            (pre.length + 4) 0
          + 256 * ((pre ++ 0xff :: b0 :: b1 :: b2 :: b3 :: b4 :: b5 :: b6 :: b7 :: post).getD
            (pre.length + 5) 0
          + 256 * ((pre ++ 0xff :: b0 :: b1 :: b2 :: b3 :: b4 :: b5 :: b6 :: b7 :: post).getD
            (pre.length + 6) 0
          + 256 * ((pre ++ 0xff :: b0 :: b1 :: b2 :: b3 :: b4 :: b5 :: b6 :: b7 :: post).getD
            (pre.length + 7) 0
          + 256 * ((pre ++ 0xff :: b0 :: b1 :: b2 :: b3 :: b4 :: b5 :: b6 :: b7 :: post).getD
            (pre.length + 8) 0
          + 256 * 0))))))) := rfl
    rw [e]
    rw [show pre.length + 2 = pre.length + (1 + 1) from by omega,
        show pre.length + 3 = pre.length + (2 + 1) from by omega,
        show pre.length + 4 = pre.length + (3 + 1) from by omega,
        show pre.length + 5 = pre.length + (4 + 1) from by omega,
        show pre.length + 6 = pre.length + (5 + 1) from by omega,
        show pre.length + 7 = pre.length + (6 + 1) from by omega,
        show pre.length + 8 = pre.length + (7 + 1) from by omega,
        show pre.length + 1 = pre.length + (0 + 1) from by omega]
    rw [hgk 0, hgk 1, hgk 2, hgk 3, hgk 4, hgk 5, hgk 6, hgk 7]
    simp only [List.getD_cons_succ, List.getD_cons_zero]
    ring
  simp only [SplitVerify.readCompactSize, hc, hg]
  norm_num
  simp only [SplitVerify.readCompactSizePart, hc2, hl]

/-- C3: `read_compact_size` (split_and_verify) decodes, at any buffer
position, value = first byte with width 1 when that byte is ≤ 0xfc; with
first byte 0xfd the next 2 bytes little-endian, width 3; with 0xfe the next
4 bytes, width 5; with 0xff the next 8 bytes, width 9 (the width being the
cursor advance). The canonical encodings of 0, 252, 253, 65535, 65536,
4294967295, 4294967296 decode to exactly those values with widths
1,1,3,3,5,5,9, in both decoders (`read_compact_size` and v2 `read_varint`,
the latter returning the width explicitly). -/
theorem claim_C3_compactsize :
    (∀ (pre : List Nat) (b : Nat) (post : List Nat), b ≤ 0xfc →
        SplitVerify.readCompactSize (pre ++ b :: post) pre.length
          = .ok (b, pre.length + 1)) ∧
    (∀ (pre : List Nat) (b0 b1 : Nat) (post : List Nat),
        SplitVerify.readCompactSize (pre ++ 0xfd :: b0 :: b1 :: post) pre.length
          = .ok (b0 + 256 * b1, pre.length + 3)) ∧
    (∀ (pre : List Nat) (b0 b1 b2 b3 : Nat) (post : List Nat),
        SplitVerify.readCompactSize (pre ++ 0xfe :: b0 :: b1 :: b2 :: b3 :: post) pre.length
          = .ok (b0 + 256 * (b1 + 256 * (b2 + 256 * b3)), pre.length + 5)) ∧
    (∀ (pre : List Nat) (b0 b1 b2 b3 b4 b5 b6 b7 : Nat) (post : List Nat),
        SplitVerify.readCompactSize
            (pre ++ 0xff :: b0 :: b1 :: b2 :: b3 :: b4 :: b5 :: b6 :: b7 :: post) pre.length
          = .ok (b0 + 256 * (b1 + 256 * (b2 + 256 * (b3 + 256 * (b4 + 256 *
                   (b5 + 256 * (b6 + 256 * b7)))))), pre.length + 9)) ∧
    (SplitVerify.readCompactSize [0] 0 = .ok (0, 1) ∧
     SplitVerify.readCompactSize [0xfc] 0 = .ok (252, 1) ∧
     SplitVerify.readCompactSize [0xfd, 0xfd, 0] 0 = .ok (253, 3) ∧
     SplitVerify.readCompactSize [0xfd, 0xff, 0xff] 0 = .ok (65535, 3) ∧
     SplitVerify.readCompactSize [0xfe, 0, 0, 1, 0] 0 = .ok (65536, 5) ∧
     SplitVerify.readCompactSize [0xfe, 0xff, 0xff, 0xff, 0xff] 0 = .ok (4294967295, 5) ∧
     SplitVerify.readCompactSize [0xff, 0, 0, 0, 0, 1, 0, 0, 0] 0 = .ok (4294967296, 9) ∧
     V2.readVarint [0] 0 = .ok (0, 1) ∧
     V2.readVarint [0xfc] 0 = .ok (252, 1) ∧
     V2.readVarint [0xfd, 0xfd, 0] 0 = .ok (253, 3) ∧
     V2.readVarint [0xfd, 0xff, 0xff] 0 = .ok (65535, 3) ∧
     V2.readVarint [0xfe, 0, 0, 1, 0] 0 = .ok (65536, 5) ∧
     V2.readVarint [0xfe, 0xff, 0xff, 0xff, 0xff] 0 = .ok (4294967295, 5) ∧
     V2.readVarint [0xff, 0, 0, 0, 0, 1, 0, 0, 0] 0 = .ok (4294967296, 9)) :=
  ⟨readCompactSize_case_fc, readCompactSize_case_fd, readCompactSize_case_fe,
   readCompactSize_case_ff,
   by decide, by decide, by decide, by decide, by decide, by decide, by decide,
   by decide, by decide, by decide, by decide, by decide, by decide, by decide⟩

/-- C3 witness: the general cases of `claim_C3_compactsize` instantiated at
concrete buffers. -/
theorem claim_C3_compactsize_witness :
    SplitVerify.readCompactSize [7] 0 = .ok (7, 1) ∧
    SplitVerify.readCompactSize [0xfd, 44, 1] 0 = .ok (44 + 256 * 1, 3) := by
  constructor
  · exact claim_C3_compactsize.1 [] 7 [] (by decide)
  · exact claim_C3_compactsize.2.1 [] 44 1 []

/-- C1 (amended): in split_and_verify, `read_segwit_marker` treats the
transaction as witness-carrying iff the byte at the peek position is 0x00
and the following byte is ≥ 0x01, consuming exactly those two bytes; in
every other case with two bytes available it consumes nothing (the
fewer-than-two-bytes case is `claim_C10_short_marker`). The v2 decoder
instead decides on the first byte alone (see `claim_C1_counterexample`). -/
theorem claim_C1_marker_detection :
    (∀ (data : List Nat) (i : Nat), i + 2 ≤ data.length → data.getD i 0 = 0 →
        1 ≤ data.getD (i + 1) 0 →
        SplitVerify.readSegwitMarker data i
          = .ok ((some "00", some (format02x (data.getD (i + 1) 0))), i + 2)) ∧
    (∀ (data : List Nat) (i : Nat), i + 2 ≤ data.length →
        ¬ (data.getD i 0 = 0 ∧ 1 ≤ data.getD (i + 1) 0) →
        SplitVerify.readSegwitMarker data i = .ok ((none, none), i)) := by
  constructor
  · intro data i hlen hm hf
    have hc : SplitVerify.checkRemaining data i 2 = .ok () := checkRemaining_ok_iff.mpr hlen
    simp only [SplitVerify.readSegwitMarker, hc]
    rw [if_pos ⟨hm, hf⟩, hm, show format02x 0 = "00" from by decide]
  · intro data i hlen hneg
    have hc : SplitVerify.checkRemaining data i 2 = .ok () := checkRemaining_ok_iff.mpr hlen
    simp only [SplitVerify.readSegwitMarker, hc]
    rw [if_neg hneg]

/-- C1 witness: both cases of `claim_C1_marker_detection` at concrete
buffers (marker 0x00 with flag 0x07, and marker 0x01). -/
theorem claim_C1_marker_detection_witness :
    SplitVerify.readSegwitMarker [9, 9, 9, 9, 0, 7] 4 = .ok ((some "00", some (format02x 7)), 6) ∧
    SplitVerify.readSegwitMarker [9, 9, 9, 9, 1, 7] 4 = .ok ((none, none), 4) :=
  ⟨claim_C1_marker_detection.1 [9, 9, 9, 9, 0, 7] 4 (by decide) (by decide) (by decide),
   claim_C1_marker_detection.2 [9, 9, 9, 9, 1, 7] 4 (by decide) (by decide)⟩

/-- C1 counterexample: `txAmbiguous` has marker byte 0x00 followed by flag
byte 0x00 — per the claim it must be parsed as legacy — yet v2's
`parse_raw_components` treats it as witness-carrying (it sets marker and
flag and consumes both bytes), because it never inspects the flag byte. -/
theorem claim_C1_counterexample :
    txAmbiguous.getD 4 0 = 0 ∧ txAmbiguous.getD 5 0 = 0 ∧
    Except.map (fun c => (c.marker, c.flag)) (V2.parseRawComponents txAmbiguous)
      = .ok (some "00", some "00") :=
  ⟨by decide, by decide, by decide⟩

/-- C10: with fewer than 2 bytes remaining after the version field,
`read_segwit_marker` returns no marker and no flag without error and
without consuming bytes, and a buffer holding only a 4-byte version then
fails at the input-count read with "Insufficient data". -/
theorem claim_C10_short_marker :
    (∀ (data : List Nat) (i : Nat), data.length < i + 2 →
        SplitVerify.readSegwitMarker data i = .ok ((none, none), i)) ∧
    (∀ v0 v1 v2 v3 : Nat,
        SplitVerify.parse [v0, v1, v2, v3] = .error "Insufficient data") := by
  constructor
  · intro data i h
    have hc : SplitVerify.checkRemaining data i 2 = .error "Insufficient data" := by
      unfold SplitVerify.checkRemaining; rw [if_pos h]
    simp only [SplitVerify.readSegwitMarker, hc]
  · intro v0 v1 v2 v3
    rfl

/-- C10 witness: `claim_C10_short_marker` at a 5-byte buffer (one byte
after the version) and at a version-only 4-byte buffer. -/
theorem claim_C10_short_marker_witness :
    SplitVerify.readSegwitMarker [1, 0, 0, 0, 5] 4 = .ok ((none, none), 4) ∧
    SplitVerify.parse [1, 0, 0, 0] = .error "Insufficient data" :=
  ⟨claim_C10_short_marker.1 [1, 0, 0, 0, 5] 4 (by decide),
   claim_C10_short_marker.2 1 0 0 0⟩

theorem sliceE_ok {bytes : List Nat} {a b : Nat} {v : List Nat}
    (h : V2.sliceE bytes a b = .ok v) : v = byteSlice bytes a b ∧ b ≤ bytes.length := by
  unfold V2.sliceE at h
  by_cases hb : b ≤ bytes.length
  · rw [if_pos hb] at h; exact ⟨(Except.ok.inj h).symm, hb⟩
  · rw [if_neg hb] at h; exact absurd h (by simp)

/-- C6 (amended): the v2 decoder stores as txid the byte-reversal of the 32
wire bytes, while split_and_verify stores the 32 wire bytes unreversed (see
`claim_C6_counterexample`). -/
theorem claim_C6_txid_storage :
    (∀ (bytes : List Nat) (c : Nat) (inp : V2.RawInput) (c' : Nat),
        V2.readInputV2 bytes c = .ok (inp, c') →
        inp.txid = (byteSlice bytes c (c + 32)).reverse) ∧
    (∀ (data : List Nat) (i : Nat) (inp : SplitVerify.Input) (i' : Nat),
        SplitVerify.readInput data i = .ok (inp, i') →
        inp.txid = byteSlice data i (i + 32)) := by
  constructor
  · intro bytes c inp c' h
    unfold V2.readInputV2 at h
    cases h1 : V2.sliceE bytes c (c + 32) with
    | error e => simp only [h1] at h; exact Except.noConfusion h
    | ok txb =>
      simp only [h1] at h
      cases h2 : V2.sliceE bytes (c + 32) (c + 36) with
      | error e => simp only [h2] at h; exact Except.noConfusion h
      | ok vout =>
        simp only [h2] at h
        cases h3 : V2.readVarint bytes (c + 36) with
        | error e => simp only [h3] at h; exact Except.noConfusion h
        | ok p =>
          obtain ⟨sLen, sLenBytes⟩ := p
          simp only [h3] at h
          cases h4 : V2.sliceE bytes (c + 36) (c + 36 + sLenBytes) with
          | error e => simp only [h4] at h; exact Except.noConfusion h
          | ok sSize =>
            simp only [h4] at h
            cases h5 : (if 0 < sLen then
                V2.sliceE bytes (c + 36 + sLenBytes) (c + 36 + sLenBytes + sLen)
              else (.ok [] : Except V2.V2Error (List Nat))) with
            | error e => simp only [h5] at h; exact Except.noConfusion h
            | ok sSig =>
              simp only [h5] at h
              cases h6 : V2.sliceE bytes (c + 36 + sLenBytes + sLen)
                  (c + 36 + sLenBytes + sLen + 4) with
              | error e => simp only [h6] at h; exact Except.noConfusion h
              | ok seqB =>
                simp only [h6] at h
                cases h
                exact congrArg List.reverse (sliceE_ok h1).1
  · intro data i inp i' h
    unfold SplitVerify.readInput at h
    cases h1 : SplitVerify.checkRemaining data i 32 with
    | error e => simp only [h1] at h; exact Except.noConfusion h
    | ok u =>
      simp only [h1] at h
      cases h2 : SplitVerify.checkRemaining data (i + 32) 4 with
      | error e => simp only [h2] at h; exact Except.noConfusion h
      | ok u2 =>
        simp only [h2] at h
        cases h3 : SplitVerify.readCompactSize data (i + 32 + 4) with
        | error e => simp only [h3] at h; exact Except.noConfusion h
        | ok p =>
          obtain ⟨ssz, i3⟩ := p
          simp only [h3] at h
          cases h4 : SplitVerify.checkRemaining data i3 ssz with
          | error e => simp only [h4] at h; exact Except.noConfusion h
          | ok u4 =>
            simp only [h4] at h
            cases h5 : SplitVerify.checkRemaining data (i3 + ssz) 4 with
            | error e => simp only [h5] at h; exact Except.noConfusion h
            | ok u5 =>
              simp only [h5] at h
              cases h
              rfl

/-- C6 witness: `claim_C6_txid_storage` applied to the input of `txLegacy`
at cursor 5 in both decoders. -/
theorem claim_C6_txid_storage_witness :
    v2InputSample.txid = (byteSlice txLegacy 5 (5 + 32)).reverse ∧
    svInputSample.txid = byteSlice txLegacy 5 (5 + 32) :=
  ⟨claim_C6_txid_storage.1 txLegacy 5 v2InputSample 46 (by decide),
   claim_C6_txid_storage.2 txLegacy 5 svInputSample 46 (by decide)⟩

/-- C6 counterexample: split_and_verify stores the txid in wire order, not
byte-reversed — on `txLegacy` (whose wire txid bytes are 0,1,…,31) the
stored txid equals the wire bytes, which differ from their reversal. -/
theorem claim_C6_counterexample :
    Except.map (fun tx => tx.inputs.map SplitVerify.Input.txid) (SplitVerify.parse txLegacy)
      = .ok [List.range 32] ∧
    (List.range 32).reverse ≠ List.range 32 :=
  ⟨by decide, by decide⟩

/-- C2: the claim is right about the intended behaviour and
split_and_verify honours it, but v2's `parse_raw_components` violates it:
`txLegacy` is a well-formed transaction (split_and_verify decodes it with
nothing left over), yet its 3-byte truncation makes v2 panic (the unchecked
slice `&bytes[0..4]` at line 137 goes out of bounds) instead of returning
an explicit failure value. -/
theorem claim_C2_truncation_panic :
    isOkE (SplitVerify.parse txLegacy) = true ∧
    V2.parseRawComponents (txLegacy.take 3) = .error .panic :=
  ⟨by decide, by decide⟩

/-- C9: the claim is right about the intended behaviour and
split_and_verify honours it (propagating "Insufficient data" from the first
short read), but v2's input decoder violates it: on `txLegacy` truncated at
byte 20 (mid-txid), the unchecked slice `&bytes[cursor..cursor+32]` at line
161 panics instead of failing with an explicit InsufficientData value. -/
theorem claim_C9_input_short_read :
    V2.parseRawComponents (txLegacy.take 20) = .error .panic ∧
    SplitVerify.parse (txLegacy.take 20) = .error "Insufficient data" :=
  ⟨by decide, by decide⟩

/-- C5 counterexample: a witness-stack fragment whose stack-item count 1 is
encoded as the 3-byte CompactSize `fd 01 00`. `read_varint` itself reports
width 3, but v2's witness decoder advances the cursor by only 1, so it
misreads the remaining count bytes as the first item; split_and_verify's
fully general reading continues after the full 3-byte encoding. -/
theorem claim_C5_counterexample :
    V2.readVarint witnessCountWide 0 = .ok (1, 3) ∧
    V2.readWitnessStackV2 witnessCountWide 0
      = .ok ({ stack_items := "01", items := [{ size := "01", item := [0] }] }, 3) ∧
    SplitVerify.readWitnessStack witnessCountWide 0
      = .ok ({ stackitems := "01", items := [{ index := 0, size := "02", item := [170, 187] }] }, 6) :=
  ⟨by decide, by decide, by decide⟩

/-- C5 (amended): split_and_verify's witness decoder reads the stack-item
count as a fully general CompactSize — for every canonically encoded count
`n` (any width 1, 3, 5 or 9) placed at the cursor, the count decodes to `n`
and the item reads continue exactly after the encoding's full width; the v2
decoder instead always advances one byte (see `claim_C5_counterexample`). -/
theorem claim_C5_general_width :
    ∀ (n : Nat) (rest : List Nat), n < 18446744073709551616 →
      SplitVerify.readCompactSize (encodeCompactSize n ++ rest) 0
          = .ok (n, (encodeCompactSize n).length) ∧
      SplitVerify.readWitnessStack (encodeCompactSize n ++ rest) 0
          = Except.map (fun p => ({ stackitems := format02x n, items := p.1 }, p.2))
              (SplitVerify.readWitnessItems (encodeCompactSize n ++ rest) n 0
                (encodeCompactSize n).length) := by
  intro n rest hn
  have h1 : SplitVerify.readCompactSize (encodeCompactSize n ++ rest) 0
      = .ok (n, (encodeCompactSize n).length) := by
    unfold encodeCompactSize
    by_cases hfc : n ≤ 0xfc
    · rw [if_pos hfc]
      simpa using readCompactSize_case_fc [] n rest hfc
    · rw [if_neg hfc]
      by_cases hfd : n ≤ 0xffff
      · rw [if_pos hfd]
        have hthis := readCompactSize_case_fd [] (n % 256) (n / 256) rest
        have harith : n % 256 + 256 * (n / 256) = n := Nat.mod_add_div n 256
        rw [harith] at hthis
        simpa using hthis
      · rw [if_neg hfd]
        by_cases hfe : n ≤ 0xffffffff
        · rw [if_pos hfe]
          have hthis := readCompactSize_case_fe [] (n % 256) (n / 256 % 256)
            (n / 65536 % 256) (n / 16777216) rest
          have harith : n % 256 + 256 * (n / 256 % 256 + 256 * (n / 65536 % 256
              + 256 * (n / 16777216))) = n := by omega
          rw [harith] at hthis
          simpa using hthis
        · rw [if_neg hfe]
          have hthis := readCompactSize_case_ff [] (n % 256) (n / 256 % 256)
            (n / 65536 % 256) (n / 16777216 % 256) (n / 4294967296 % 256)
            (n / 1099511627776 % 256) (n / 281474976710656 % 256)
            (n / 72057594037927936) rest
          have harith : n % 256 + 256 * (n / 256 % 256 + 256 * (n / 65536 % 256
              + 256 * (n / 16777216 % 256 + 256 * (n / 4294967296 % 256
              + 256 * (n / 1099511627776 % 256 + 256 * (n / 281474976710656 % 256
              + 256 * (n / 72057594037927936))))))) = n := by omega
          rw [harith] at hthis
          simpa using hthis
  refine ⟨h1, ?_⟩
  cases hw : SplitVerify.readWitnessItems (encodeCompactSize n ++ rest) n 0
      (encodeCompactSize n).length with
  | error e => simp only [SplitVerify.readWitnessStack, h1, hw, Except.map]
  | ok p =>
    obtain ⟨items, j⟩ := p
    simp only [SplitVerify.readWitnessStack, h1, hw, Except.map]

/-- C5 witness: `claim_C5_general_width` at the count 300, whose canonical
encoding `fd 2c 01` is 3 bytes wide. -/
theorem claim_C5_general_width_witness :
    SplitVerify.readCompactSize (encodeCompactSize 300 ++ [2, 170, 187]) 0
        = .ok (300, (encodeCompactSize 300).length) ∧
    SplitVerify.readWitnessStack (encodeCompactSize 300 ++ [2, 170, 187]) 0
        = Except.map (fun p => ({ stackitems := format02x 300, items := p.1 }, p.2))
            (SplitVerify.readWitnessItems (encodeCompactSize 300 ++ [2, 170, 187]) 300 0
              (encodeCompactSize 300).length) :=
  claim_C5_general_width 300 [2, 170, 187] (by decide)

theorem readInputs_length (data : List Nat) :
    ∀ (n i : Nat) (l : List SplitVerify.Input) (j : Nat),
      SplitVerify.readInputs data n i = .ok (l, j) → l.length = n := by
  intro n
  induction n with
  | zero =>
    intro i l j h
    unfold SplitVerify.readInputs at h
    cases h
    rfl
  | succ n ih =>
    intro i l j h
    unfold SplitVerify.readInputs at h
    cases h1 : SplitVerify.readInput data i with
    | error e => simp only [h1] at h; exact Except.noConfusion h
    | ok p =>
      obtain ⟨inp, i'⟩ := p
      simp only [h1] at h
      cases h2 : SplitVerify.readInputs data n i' with
      | error e => simp only [h2] at h; exact Except.noConfusion h
      | ok q =>
        obtain ⟨rest, i''⟩ := q
        simp only [h2] at h
        cases h
        have hr := ih i' rest j h2
        simp [hr]

theorem readWitnesses_length (data : List Nat) :
    ∀ (n i : Nat) (l : List SplitVerify.Witness) (j : Nat),
      SplitVerify.readWitnesses data n i = .ok (l, j) → l.length = n := by
  intro n
  induction n with
  | zero =>
    intro i l j h
    unfold SplitVerify.readWitnesses at h
    cases h
    rfl
  | succ n ih =>
    intro i l j h
    unfold SplitVerify.readWitnesses at h
    cases h1 : SplitVerify.readWitnessStack data i with
    | error e => simp only [h1] at h; exact Except.noConfusion h
    | ok p =>
      obtain ⟨w, i'⟩ := p
      simp only [h1] at h
      cases h2 : SplitVerify.readWitnesses data n i' with
      | error e => simp only [h2] at h; exact Except.noConfusion h
      | ok q =>
        obtain ⟨rest, i''⟩ := q
        simp only [h2] at h
        cases h
        have hr := ih i' rest j h2
        simp [hr]

/-- C7: whenever split_and_verify's `parse` succeeds and the transaction
carries a witness section, that section has exactly one witness stack per
decoded input (both lists are built in the same input order, so stack i
belongs positionally to input i). -/
theorem claim_C7_witness_input_count :
    ∀ (raw : List Nat) (tx : SplitVerify.Transaction) (ws : List SplitVerify.Witness),
      SplitVerify.parse raw = .ok tx → tx.witness = some ws →
      ws.length = tx.inputs.length := by
  intro raw tx ws hp hw
  unfold SplitVerify.parse at hp
  cases hc : SplitVerify.parseCore raw with
  | error e => simp only [hc] at hp; exact Except.noConfusion hp
  | ok p =>
    obtain ⟨tx0, iF⟩ := p
    simp only [hc] at hp
    by_cases hi : iF ≠ raw.length
    · rw [if_pos hi] at hp; exact Except.noConfusion hp
    · rw [if_neg hi] at hp
      cases hp
      unfold SplitVerify.parseCore at hc
      cases k1 : SplitVerify.checkRemaining raw 0 4 with
      | error e => simp only [k1] at hc; exact Except.noConfusion hc
      | ok u1 =>
        simp only [k1] at hc
        cases k2 : SplitVerify.readSegwitMarker raw 4 with
        | error e => simp only [k2] at hc; exact Except.noConfusion hc
        | ok p2 =>
          obtain ⟨⟨marker, flag⟩, i1⟩ := p2
          simp only [k2] at hc
          cases k3 : SplitVerify.readCompactSize raw i1 with
          | error e => simp only [k3] at hc; exact Except.noConfusion hc
          | ok p3 =>
            obtain ⟨inputCount, i2⟩ := p3
            simp only [k3] at hc
            cases k4 : SplitVerify.readInputs raw inputCount i2 with
            | error e => simp only [k4] at hc; exact Except.noConfusion hc
            | ok p4 =>
              obtain ⟨inputs, i3⟩ := p4
              simp only [k4] at hc
              cases k5 : SplitVerify.readCompactSize raw i3 with
              | error e => simp only [k5] at hc; exact Except.noConfusion hc
              | ok p5 =>
                obtain ⟨outputCount, i4⟩ := p5
                simp only [k5] at hc
                cases k6 : SplitVerify.readOutputs raw outputCount i4 with
                | error e => simp only [k6] at hc; exact Except.noConfusion hc
                | ok p6 =>
                  obtain ⟨outputs, i5⟩ := p6
                  simp only [k6] at hc
                  cases marker with
                  | none =>
                    simp only [] at hc
                    cases k8 : SplitVerify.checkRemaining raw i5 4 with
                    | error e => simp only [k8] at hc; exact Except.noConfusion hc
                    | ok u8 =>
                      simp only [k8] at hc
                      cases hc
                      exact absurd hw (by simp)
                  | some m =>
                    simp only [] at hc
                    cases k7 : SplitVerify.readWitnesses raw inputCount i5 with
                    | error e => simp only [k7] at hc; exact Except.noConfusion hc
                    | ok p7 =>
                      obtain ⟨ws', i6⟩ := p7
                      simp only [k7] at hc
                      cases k8 : SplitVerify.checkRemaining raw i6 4 with
                      | error e => simp only [k8] at hc; exact Except.noConfusion hc
                      | ok u8 =>
                        simp only [k8] at hc
                        cases hc
                        simp only at hw
                        cases hw' : ws' with
                        | nil =>
                          have : ws = [] := by
                            rw [hw'] at hw
                            exact (Option.some.inj hw).symm
                          rw [this, ← hw']
                          rw [readWitnesses_length raw inputCount i5 ws' i6 k7,
                              readInputs_length raw inputCount i2 inputs i3 k4]
                        | cons a t =>
                          have : ws = ws' := by
                            exact (Option.some.inj hw).symm
                          rw [this]
                          rw [readWitnesses_length raw inputCount i5 ws' i6 k7,
                              readInputs_length raw inputCount i2 inputs i3 k4]

/-- C7 witness: `claim_C7_witness_input_count` on the concrete
witness-carrying transaction `txSegwit`. -/
theorem claim_C7_witness_input_count_witness :
    ([{ stackitems := "00", items := [] }] : List SplitVerify.Witness).length
      = txSegwitDecoded.inputs.length :=
  claim_C7_witness_input_count txSegwit txSegwitDecoded
    [{ stackitems := "00", items := [] }] (by decide) (by decide)

theorem checkRemaining_append {data : List Nat} {i n : Nat} {u : Unit} (extra : List Nat)
    (h : SplitVerify.checkRemaining data i n = .ok u) :
    SplitVerify.checkRemaining (data ++ extra) i n = .ok () := by
  have hb := checkRemaining_ok_bound h
  exact checkRemaining_ok_iff.mpr (by simp only [List.length_append]; omega)

theorem leVal_append {data : List Nat} (extra : List Nat) :
    ∀ (k i : Nat), i + k ≤ data.length →
      SplitVerify.leVal (data ++ extra) i k = SplitVerify.leVal data i k := by
  intro k
  induction k with
  | zero => intro i _; rfl
  | succ k ih =>
    intro i hb
    show (data ++ extra).getD i 0 + 256 * SplitVerify.leVal (data ++ extra) (i + 1) k
        = data.getD i 0 + 256 * SplitVerify.leVal data (i + 1) k
    rw [List.getD_append data extra 0 i (by omega), ih (i + 1) (by omega)]

theorem readCompactSizePart_ok_facts {data : List Nat} {s k v j : Nat}
    (h : SplitVerify.readCompactSizePart data s k = .ok (v, j)) :
    j = s + k ∧ s + k ≤ data.length := by
  unfold SplitVerify.readCompactSizePart at h
  cases kk : SplitVerify.checkRemaining data s k with
  | error e => simp only [kk] at h; exact Except.noConfusion h
  | ok u =>
    simp only [kk] at h
    cases h
    exact ⟨rfl, checkRemaining_ok_bound kk⟩

theorem readCompactSizePart_append {data : List Nat} {s k : Nat} {r : Nat × Nat}
    (extra : List Nat) (h : SplitVerify.readCompactSizePart data s k = .ok r) :
    SplitVerify.readCompactSizePart (data ++ extra) s k = .ok r := by
  unfold SplitVerify.readCompactSizePart at h ⊢
  cases kk : SplitVerify.checkRemaining data s k with
  | error e => simp only [kk] at h; exact Except.noConfusion h
  | ok u =>
    simp only [kk] at h
    have hb := checkRemaining_ok_bound kk
    simp only [checkRemaining_append extra kk]
    rw [leVal_append extra k s hb]
    exact h

theorem readCompactSize_ok_facts {data : List Nat} {i v j : Nat}
    (h : SplitVerify.readCompactSize data i = .ok (v, j)) :
    i + 1 ≤ j ∧ j ≤ data.length := by
  unfold SplitVerify.readCompactSize at h
  cases kk : SplitVerify.checkRemaining data i 1 with
  | error e => simp only [kk] at h; exact Except.noConfusion h
  | ok u =>
    simp only [kk] at h
    have hb := checkRemaining_ok_bound kk
    by_cases c1 : data.getD i 0 ≤ 0xfc
    · rw [if_pos c1] at h; cases h; omega
    · rw [if_neg c1] at h
      by_cases c2 : data.getD i 0 = 0xfd
      · rw [if_pos c2] at h
        obtain ⟨hj, hlen⟩ := readCompactSizePart_ok_facts h; omega
      · rw [if_neg c2] at h
        by_cases c3 : data.getD i 0 = 0xfe
        · rw [if_pos c3] at h
          obtain ⟨hj, hlen⟩ := readCompactSizePart_ok_facts h; omega
        · rw [if_neg c3] at h
          obtain ⟨hj, hlen⟩ := readCompactSizePart_ok_facts h; omega

theorem readCompactSize_append {data : List Nat} {i : Nat} {r : Nat × Nat}
    (extra : List Nat) (h : SplitVerify.readCompactSize data i = .ok r) :
    SplitVerify.readCompactSize (data ++ extra) i = .ok r := by
  unfold SplitVerify.readCompactSize at h ⊢
  cases kk : SplitVerify.checkRemaining data i 1 with
  | error e => simp only [kk] at h; exact Except.noConfusion h
  | ok u =>
    simp only [kk] at h
    have hb := checkRemaining_ok_bound kk
    have hg : (data ++ extra).getD i 0 = data.getD i 0 :=
      List.getD_append data extra 0 i (by omega)
    simp only [checkRemaining_append extra kk, hg]
    by_cases c1 : data.getD i 0 ≤ 0xfc
    · rw [if_pos c1] at h ⊢; exact h
    · rw [if_neg c1] at h ⊢
      by_cases c2 : data.getD i 0 = 0xfd
      · rw [if_pos c2] at h ⊢; exact readCompactSizePart_append extra h
      · rw [if_neg c2] at h ⊢
        by_cases c3 : data.getD i 0 = 0xfe
        · rw [if_pos c3] at h ⊢; exact readCompactSizePart_append extra h
        · rw [if_neg c3] at h ⊢; exact readCompactSizePart_append extra h

theorem readSegwitMarker_mono {data : List Nat} {i : Nat}
    {r : (Option String × Option String) × Nat}
    (h : SplitVerify.readSegwitMarker data i = .ok r) : i ≤ r.2 := by
  unfold SplitVerify.readSegwitMarker at h
  cases kk : SplitVerify.checkRemaining data i 2 with
  | error e => simp only [kk] at h; cases h; exact Nat.le_refl i
  | ok u =>
    simp only [kk] at h
    by_cases hcond : data.getD i 0 = 0 ∧ 1 ≤ data.getD (i + 1) 0
    · rw [if_pos hcond] at h; cases h; omega
    · rw [if_neg hcond] at h; cases h; exact Nat.le_refl i

theorem readSegwitMarker_append {data : List Nat} {i : Nat}
    {r : (Option String × Option String) × Nat} (extra : List Nat)
    (hlen : i + 2 ≤ data.length) (h : SplitVerify.readSegwitMarker data i = .ok r) :
    SplitVerify.readSegwitMarker (data ++ extra) i = .ok r := by
  have kc : SplitVerify.checkRemaining data i 2 = .ok () := checkRemaining_ok_iff.mpr hlen
  have kc' : SplitVerify.checkRemaining (data ++ extra) i 2 = .ok () :=
    checkRemaining_append extra kc
  have hg1 : (data ++ extra).getD i 0 = data.getD i 0 :=
    List.getD_append data extra 0 i (by omega)
  have hg2 : (data ++ extra).getD (i + 1) 0 = data.getD (i + 1) 0 :=
    List.getD_append data extra 0 (i + 1) (by omega)
  unfold SplitVerify.readSegwitMarker at h ⊢
  simp only [kc] at h
  simp only [kc', hg1, hg2]
  by_cases hcond : data.getD i 0 = 0 ∧ 1 ≤ data.getD (i + 1) 0
  · rw [if_pos hcond] at h ⊢; exact h
  · rw [if_neg hcond] at h ⊢; exact h

theorem readInput_mono {data : List Nat} {i : Nat} {r : SplitVerify.Input × Nat}
    (h : SplitVerify.readInput data i = .ok r) : i ≤ r.2 := by
  unfold SplitVerify.readInput at h
  cases k1 : SplitVerify.checkRemaining data i 32 with
  | error e => simp only [k1] at h; exact Except.noConfusion h
  | ok u1 =>
    simp only [k1] at h
    cases k2 : SplitVerify.checkRemaining data (i + 32) 4 with
    | error e => simp only [k2] at h; exact Except.noConfusion h
    | ok u2 =>
      simp only [k2] at h
      cases k3 : SplitVerify.readCompactSize data (i + 32 + 4) with
      | error e => simp only [k3] at h; exact Except.noConfusion h
      | ok p =>
        obtain ⟨ssz, i3⟩ := p
        simp only [k3] at h
        have hf := readCompactSize_ok_facts k3
        cases k4 : SplitVerify.checkRemaining data i3 ssz with
        | error e => simp only [k4] at h; exact Except.noConfusion h
        | ok u4 =>
          simp only [k4] at h
          cases k5 : SplitVerify.checkRemaining data (i3 + ssz) 4 with
          | error e => simp only [k5] at h; exact Except.noConfusion h
          | ok u5 =>
            simp only [k5] at h
            cases h
            simp only
            omega

theorem readInput_append {data : List Nat} {i : Nat} {r : SplitVerify.Input × Nat}
    (extra : List Nat) (h : SplitVerify.readInput data i = .ok r) :
    SplitVerify.readInput (data ++ extra) i = .ok r := by
  unfold SplitVerify.readInput at h ⊢
  cases k1 : SplitVerify.checkRemaining data i 32 with
  | error e => simp only [k1] at h; exact Except.noConfusion h
  | ok u1 =>
    simp only [k1] at h
    have hb1 := checkRemaining_ok_bound k1
    cases k2 : SplitVerify.checkRemaining data (i + 32) 4 with
    | error e => simp only [k2] at h; exact Except.noConfusion h
    | ok u2 =>
      simp only [k2] at h
      have hb2 := checkRemaining_ok_bound k2
      cases k3 : SplitVerify.readCompactSize data (i + 32 + 4) with
      | error e => simp only [k3] at h; exact Except.noConfusion h
      | ok p =>
        obtain ⟨ssz, i3⟩ := p
        simp only [k3] at h
        cases k4 : SplitVerify.checkRemaining data i3 ssz with
        | error e => simp only [k4] at h; exact Except.noConfusion h
        | ok u4 =>
          simp only [k4] at h
          have hb4 := checkRemaining_ok_bound k4
          cases k5 : SplitVerify.checkRemaining data (i3 + ssz) 4 with
          | error e => simp only [k5] at h; exact Except.noConfusion h
          | ok u5 =>
            simp only [k5] at h
            have hb5 := checkRemaining_ok_bound k5
            simp only [checkRemaining_append extra k1, checkRemaining_append extra k2,
              readCompactSize_append extra k3, checkRemaining_append extra k4,
              checkRemaining_append extra k5]
            have e1 : byteSlice (data ++ extra) i (i + 32) = byteSlice data i (i + 32) :=
              byteSlice_append data extra (by omega) (by omega)
            have e2 : byteSlice (data ++ extra) (i + 32) (i + 32 + 4)
                = byteSlice data (i + 32) (i + 32 + 4) :=
              byteSlice_append data extra (by omega) (by omega)
            have e5 : byteSlice (data ++ extra) (i3 + ssz) (i3 + ssz + 4)
                = byteSlice data (i3 + ssz) (i3 + ssz + 4) :=
              byteSlice_append data extra (by omega) (by omega)
            rw [e1, e2, e5]
            by_cases hs : 0 < ssz
            · have e4 : byteSlice (data ++ extra) i3 (i3 + ssz) = byteSlice data i3 (i3 + ssz) :=
                byteSlice_append data extra (by omega) (by omega)
              rw [if_pos hs] at h ⊢
              rw [e4]
              exact h
            · rw [if_neg hs] at h ⊢
              exact h

theorem readOutput_mono {data : List Nat} {i : Nat} {r : SplitVerify.Output × Nat}
    (h : SplitVerify.readOutput data i = .ok r) : i ≤ r.2 := by
  unfold SplitVerify.readOutput at h
  cases k1 : SplitVerify.checkRemaining data i 8 with
  | error e => simp only [k1] at h; exact Except.noConfusion h
  | ok u1 =>
    simp only [k1] at h
    cases k2 : SplitVerify.readCompactSize data (i + 8) with
    | error e => simp only [k2] at h; exact Except.noConfusion h
    | ok p =>
      obtain ⟨psz, i2⟩ := p
      simp only [k2] at h
      have hf := readCompactSize_ok_facts k2
      cases k3 : SplitVerify.checkRemaining data i2 psz with
      | error e => simp only [k3] at h; exact Except.noConfusion h
      | ok u3 =>
        simp only [k3] at h
        cases h
        simp only
        omega

theorem readOutput_append {data : List Nat} {i : Nat} {r : SplitVerify.Output × Nat}
    (extra : List Nat) (h : SplitVerify.readOutput data i = .ok r) :
    SplitVerify.readOutput (data ++ extra) i = .ok r := by
  unfold SplitVerify.readOutput at h ⊢
  cases k1 : SplitVerify.checkRemaining data i 8 with
  | error e => simp only [k1] at h; exact Except.noConfusion h
  | ok u1 =>
    simp only [k1] at h
    have hb1 := checkRemaining_ok_bound k1
    cases k2 : SplitVerify.readCompactSize data (i + 8) with
    | error e => simp only [k2] at h; exact Except.noConfusion h
    | ok p =>
      obtain ⟨psz, i2⟩ := p
      simp only [k2] at h
      cases k3 : SplitVerify.checkRemaining data i2 psz with
      | error e => simp only [k3] at h; exact Except.noConfusion h
      | ok u3 =>
        simp only [k3] at h
        have hb3 := checkRemaining_ok_bound k3
        simp only [checkRemaining_append extra k1, readCompactSize_append extra k2,
          checkRemaining_append extra k3]
        have e1 : byteSlice (data ++ extra) i (i + 8) = byteSlice data i (i + 8) :=
          byteSlice_append data extra (by omega) (by omega)
        have e3 : byteSlice (data ++ extra) i2 (i2 + psz) = byteSlice data i2 (i2 + psz) :=
          byteSlice_append data extra (by omega) (by omega)
        rw [e1, e3]
        exact h

theorem readInputs_mono {data : List Nat} :
    ∀ (n i : Nat) (r : List SplitVerify.Input × Nat),
      SplitVerify.readInputs data n i = .ok r → i ≤ r.2 := by
  intro n
  induction n with
  | zero =>
    intro i r h
    unfold SplitVerify.readInputs at h
    cases h; exact Nat.le_refl i
  | succ n ih =>
    intro i r h
    unfold SplitVerify.readInputs at h
    cases k1 : SplitVerify.readInput data i with
    | error e => simp only [k1] at h; exact Except.noConfusion h
    | ok p =>
      obtain ⟨inp, i'⟩ := p
      simp only [k1] at h
      cases k2 : SplitVerify.readInputs data n i' with
      | error e => simp only [k2] at h; exact Except.noConfusion h
      | ok q =>
        obtain ⟨rest, i''⟩ := q
        simp only [k2] at h
        cases h
        have h1 := readInput_mono k1
        have h2 := ih i' (rest, i'') k2
        simp only at h1 h2 ⊢
        omega

theorem readInputs_append {data : List Nat} (extra : List Nat) :
    ∀ (n i : Nat) (r : List SplitVerify.Input × Nat),
      SplitVerify.readInputs data n i = .ok r →
      SplitVerify.readInputs (data ++ extra) n i = .ok r := by
  intro n
  induction n with
  | zero =>
    intro i r h
    unfold SplitVerify.readInputs at h ⊢
    exact h
  | succ n ih =>
    intro i r h
    unfold SplitVerify.readInputs at h ⊢
    cases k1 : SplitVerify.readInput data i with
    | error e => simp only [k1] at h; exact Except.noConfusion h
    | ok p =>
      obtain ⟨inp, i'⟩ := p
      simp only [k1] at h
      cases k2 : SplitVerify.readInputs data n i' with
      | error e => simp only [k2] at h; exact Except.noConfusion h
      | ok q =>
        obtain ⟨rest, i''⟩ := q
        simp only [k2] at h
        simp only [readInput_append extra k1, ih i' (rest, i'') k2]
        exact h

theorem readOutputs_mono {data : List Nat} :
    ∀ (n i : Nat) (r : List SplitVerify.Output × Nat),
      SplitVerify.readOutputs data n i = .ok r → i ≤ r.2 := by
  intro n
  induction n with
  | zero =>
    intro i r h
    unfold SplitVerify.readOutputs at h
    cases h; exact Nat.le_refl i
  | succ n ih =>
    intro i r h
    unfold SplitVerify.readOutputs at h
    cases k1 : SplitVerify.readOutput data i with
    | error e => simp only [k1] at h; exact Except.noConfusion h
    | ok p =>
      obtain ⟨out, i'⟩ := p
      simp only [k1] at h
      cases k2 : SplitVerify.readOutputs data n i' with
      | error e => simp only [k2] at h; exact Except.noConfusion h
      | ok q =>
        obtain ⟨rest, i''⟩ := q
        simp only [k2] at h
        cases h
        have h1 := readOutput_mono k1
        have h2 := ih i' (rest, i'') k2
        simp only at h1 h2 ⊢
        omega

theorem readOutputs_append {data : List Nat} (extra : List Nat) :
    ∀ (n i : Nat) (r : List SplitVerify.Output × Nat),
      SplitVerify.readOutputs data n i = .ok r →
      SplitVerify.readOutputs (data ++ extra) n i = .ok r := by
  intro n
  induction n with
  | zero =>
    intro i r h
    unfold SplitVerify.readOutputs at h ⊢
    exact h
  | succ n ih =>
    intro i r h
    unfold SplitVerify.readOutputs at h ⊢
    cases k1 : SplitVerify.readOutput data i with
    | error e => simp only [k1] at h; exact Except.noConfusion h
    | ok p =>
      obtain ⟨out, i'⟩ := p
      simp only [k1] at h
      cases k2 : SplitVerify.readOutputs data n i' with
      | error e => simp only [k2] at h; exact Except.noConfusion h
      | ok q =>
        obtain ⟨rest, i''⟩ := q
        simp only [k2] at h
        simp only [readOutput_append extra k1, ih i' (rest, i'') k2]
        exact h

theorem readWitnessItems_mono {data : List Nat} :
    ∀ (n idx i : Nat) (r : List SplitVerify.WitnessItem × Nat),
      SplitVerify.readWitnessItems data n idx i = .ok r → i ≤ r.2 := by
  intro n
  induction n with
  | zero =>
    intro idx i r h
    unfold SplitVerify.readWitnessItems at h
    cases h; exact Nat.le_refl i
  | succ n ih =>
    intro idx i r h
    unfold SplitVerify.readWitnessItems at h
    cases k1 : SplitVerify.readCompactSize data i with
    | error e => simp only [k1] at h; exact Except.noConfusion h
    | ok p =>
      obtain ⟨isz, i'⟩ := p
      simp only [k1] at h
      have hf := readCompactSize_ok_facts k1
      cases k2 : SplitVerify.checkRemaining data i' isz with
      | error e => simp only [k2] at h; exact Except.noConfusion h
      | ok u2 =>
        simp only [k2] at h
        cases k3 : SplitVerify.readWitnessItems data n (idx + 1) (i' + isz) with
        | error e => simp only [k3] at h; exact Except.noConfusion h
        | ok q =>
          obtain ⟨rest, i''⟩ := q
          simp only [k3] at h
          cases h
          have h3 := ih (idx + 1) (i' + isz) (rest, i'') k3
          simp only at h3 ⊢
          omega

theorem readWitnessItems_append {data : List Nat} (extra : List Nat) :
    ∀ (n idx i : Nat) (r : List SplitVerify.WitnessItem × Nat),
      SplitVerify.readWitnessItems data n idx i = .ok r →
      SplitVerify.readWitnessItems (data ++ extra) n idx i = .ok r := by
  intro n
  induction n with
  | zero =>
    intro idx i r h
    unfold SplitVerify.readWitnessItems at h ⊢
    exact h
  | succ n ih =>
    intro idx i r h
    unfold SplitVerify.readWitnessItems at h ⊢
    cases k1 : SplitVerify.readCompactSize data i with
    | error e => simp only [k1] at h; exact Except.noConfusion h
    | ok p =>
      obtain ⟨isz, i'⟩ := p
      simp only [k1] at h
      cases k2 : SplitVerify.checkRemaining data i' isz with
      | error e => simp only [k2] at h; exact Except.noConfusion h
      | ok u2 =>
        simp only [k2] at h
        have hb2 := checkRemaining_ok_bound k2
        cases k3 : SplitVerify.readWitnessItems data n (idx + 1) (i' + isz) with
        | error e => simp only [k3] at h; exact Except.noConfusion h
        | ok q =>
          obtain ⟨rest, i''⟩ := q
          simp only [k3] at h
          simp only [readCompactSize_append extra k1, checkRemaining_append extra k2,
            ih (idx + 1) (i' + isz) (rest, i'') k3]
          have e2 : byteSlice (data ++ extra) i' (i' + isz) = byteSlice data i' (i' + isz) :=
            byteSlice_append data extra (by omega) (by omega)
          rw [e2]
          exact h

theorem readWitnessStack_mono {data : List Nat} {i : Nat} {r : SplitVerify.Witness × Nat}
    (h : SplitVerify.readWitnessStack data i = .ok r) : i ≤ r.2 := by
  unfold SplitVerify.readWitnessStack at h
  cases k1 : SplitVerify.readCompactSize data i with
  | error e => simp only [k1] at h; exact Except.noConfusion h
  | ok p =>
    obtain ⟨cnt, i'⟩ := p
    simp only [k1] at h
    have hf := readCompactSize_ok_facts k1
    cases k2 : SplitVerify.readWitnessItems data cnt 0 i' with
    | error e => simp only [k2] at h; exact Except.noConfusion h
    | ok q =>
      obtain ⟨items, i''⟩ := q
      simp only [k2] at h
      cases h
      have h2 := readWitnessItems_mono cnt 0 i' (items, i'') k2
      simp only at h2 ⊢
      omega

theorem readWitnessStack_append {data : List Nat} {i : Nat} {r : SplitVerify.Witness × Nat}
    (extra : List Nat) (h : SplitVerify.readWitnessStack data i = .ok r) :
    SplitVerify.readWitnessStack (data ++ extra) i = .ok r := by
  unfold SplitVerify.readWitnessStack at h ⊢
  cases k1 : SplitVerify.readCompactSize data i with
  | error e => simp only [k1] at h; exact Except.noConfusion h
  | ok p =>
    obtain ⟨cnt, i'⟩ := p
    simp only [k1] at h
    cases k2 : SplitVerify.readWitnessItems data cnt 0 i' with
    | error e => simp only [k2] at h; exact Except.noConfusion h
    | ok q =>
      obtain ⟨items, i''⟩ := q
      simp only [k2] at h
      simp only [readCompactSize_append extra k1, readWitnessItems_append extra cnt 0 i'
        (items, i'') k2]
      exact h

theorem readWitnesses_mono {data : List Nat} :
    ∀ (n i : Nat) (r : List SplitVerify.Witness × Nat),
      SplitVerify.readWitnesses data n i = .ok r → i ≤ r.2 := by
  intro n
  induction n with
  | zero =>
    intro i r h
    unfold SplitVerify.readWitnesses at h
    cases h; exact Nat.le_refl i
  | succ n ih =>
    intro i r h
    unfold SplitVerify.readWitnesses at h
    cases k1 : SplitVerify.readWitnessStack data i with
    | error e => simp only [k1] at h; exact Except.noConfusion h
    | ok p =>
      obtain ⟨w, i'⟩ := p
      simp only [k1] at h
      cases k2 : SplitVerify.readWitnesses data n i' with
      | error e => simp only [k2] at h; exact Except.noConfusion h
      | ok q =>
        obtain ⟨rest, i''⟩ := q
        simp only [k2] at h
        cases h
        have h1 := readWitnessStack_mono k1
        have h2 := ih i' (rest, i'') k2
        simp only at h1 h2 ⊢
        omega

theorem readWitnesses_append {data : List Nat} (extra : List Nat) :
    ∀ (n i : Nat) (r : List SplitVerify.Witness × Nat),
      SplitVerify.readWitnesses data n i = .ok r →
      SplitVerify.readWitnesses (data ++ extra) n i = .ok r := by
  intro n
  induction n with
  | zero =>
    intro i r h
    unfold SplitVerify.readWitnesses at h ⊢
    exact h
  | succ n ih =>
    intro i r h
    unfold SplitVerify.readWitnesses at h ⊢
    cases k1 : SplitVerify.readWitnessStack data i with
    | error e => simp only [k1] at h; exact Except.noConfusion h
    | ok p =>
      obtain ⟨w, i'⟩ := p
      simp only [k1] at h
      cases k2 : SplitVerify.readWitnesses data n i' with
      | error e => simp only [k2] at h; exact Except.noConfusion h
      | ok q =>
        obtain ⟨rest, i''⟩ := q
        simp only [k2] at h
        simp only [readWitnessStack_append extra k1, ih i' (rest, i'') k2]
        exact h

/-- C4 (amended): in split_and_verify, appending one byte to any buffer that
`parse` accepts makes the decode fail with "Extra data after transaction"
(the trailing-data check at lines 96-98); the v2 decoder performs no such
check and accepts trailing bytes (see `claim_C4_counterexample`). -/
theorem claim_C4_trailing_data :
    ∀ (raw : List Nat) (tx : SplitVerify.Transaction) (b : Nat),
      SplitVerify.parse raw = .ok tx →
      SplitVerify.parse (raw ++ [b]) = .error "Extra data after transaction" := by
  intro raw tx b hp
  unfold SplitVerify.parse at hp
  cases hpc : SplitVerify.parseCore raw with
  | error e => simp only [hpc] at hp; exact Except.noConfusion hp
  | ok p =>
    obtain ⟨tx0, iF⟩ := p
    simp only [hpc] at hp
    by_cases hi : iF ≠ raw.length
    · rw [if_pos hi] at hp; exact Except.noConfusion hp
    · have hF : iF = raw.length := not_not.mp hi
      unfold SplitVerify.parseCore at hpc
      cases k1 : SplitVerify.checkRemaining raw 0 4 with
      | error e => simp only [k1] at hpc; exact Except.noConfusion hpc
      | ok u1 =>
        simp only [k1] at hpc
        cases k2 : SplitVerify.readSegwitMarker raw 4 with
        | error e => simp only [k2] at hpc; exact Except.noConfusion hpc
        | ok p2 =>
          obtain ⟨⟨marker, flag⟩, i1⟩ := p2
          simp only [k2] at hpc
          cases k3 : SplitVerify.readCompactSize raw i1 with
          | error e => simp only [k3] at hpc; exact Except.noConfusion hpc
          | ok p3 =>
            obtain ⟨inputCount, i2⟩ := p3
            simp only [k3] at hpc
            cases k4 : SplitVerify.readInputs raw inputCount i2 with
            | error e => simp only [k4] at hpc; exact Except.noConfusion hpc
            | ok p4 =>
              obtain ⟨inputs, i3⟩ := p4
              simp only [k4] at hpc
              cases k5 : SplitVerify.readCompactSize raw i3 with
              | error e => simp only [k5] at hpc; exact Except.noConfusion hpc
              | ok p5 =>
                obtain ⟨outputCount, i4⟩ := p5
                simp only [k5] at hpc
                cases k6 : SplitVerify.readOutputs raw outputCount i4 with
                | error e => simp only [k6] at hpc; exact Except.noConfusion hpc
                | ok p6 =>
                  obtain ⟨outputs, i5⟩ := p6
                  simp only [k6] at hpc
                  have hm2 := readSegwitMarker_mono k2
                  have hf3 := readCompactSize_ok_facts k3
                  have hm4 := readInputs_mono inputCount i2 (inputs, i3) k4
                  have hf5 := readCompactSize_ok_facts k5
                  have hm6 := readOutputs_mono outputCount i4 (outputs, i5) k6
                  simp only at hm2 hm4 hm6
                  cases marker with
                  | none =>
                    cases k8 : SplitVerify.checkRemaining raw i5 4 with
                    | error e => simp only [k8] at hpc; exact Except.noConfusion hpc
                    | ok u8 =>
                      simp only [k8] at hpc
                      cases hpc
                      have hlen6 : 4 + 2 ≤ raw.length := by omega
                      unfold SplitVerify.parse SplitVerify.parseCore
                      simp only [checkRemaining_append [b] k1,
                        readSegwitMarker_append [b] hlen6 k2,
                        readCompactSize_append [b] k3,
                        readInputs_append [b] inputCount i2 (inputs, i3) k4,
                        readCompactSize_append [b] k5,
                        readOutputs_append [b] outputCount i4 (outputs, i5) k6,
                        checkRemaining_append [b] k8]
                      rw [if_pos (by
                        simp only [List.length_append, List.length_cons, List.length_nil]
                        omega)]
                  | some m =>
                    cases k7 : SplitVerify.readWitnesses raw inputCount i5 with
                    | error e => simp only [k7] at hpc; exact Except.noConfusion hpc
                    | ok p7 =>
                      obtain ⟨ws', i6⟩ := p7
                      simp only [k7] at hpc
                      cases k8 : SplitVerify.checkRemaining raw i6 4 with
                      | error e => simp only [k8] at hpc; exact Except.noConfusion hpc
                      | ok u8 =>
                        simp only [k8] at hpc
                        cases hpc
                        have hm7 := readWitnesses_mono inputCount i5 (ws', i6) k7
                        simp only at hm7
                        have hlen6 : 4 + 2 ≤ raw.length := by omega
                        unfold SplitVerify.parse SplitVerify.parseCore
                        simp only [checkRemaining_append [b] k1,
                          readSegwitMarker_append [b] hlen6 k2,
                          readCompactSize_append [b] k3,
                          readInputs_append [b] inputCount i2 (inputs, i3) k4,
                          readCompactSize_append [b] k5,
                          readOutputs_append [b] outputCount i4 (outputs, i5) k6,
                          readWitnesses_append [b] inputCount i5 (ws', i6) k7,
                          checkRemaining_append [b] k8]
                        rw [if_pos (by
                          simp only [List.length_append, List.length_cons, List.length_nil]
                          omega)]

/-- C4 witness: appending the byte 0x05 to the well-formed minimal legacy
transaction `txMinimal` makes split_and_verify fail with the trailing-data
error. -/
theorem claim_C4_trailing_data_witness :
    SplitVerify.parse (txMinimal ++ [5]) = .error "Extra data after transaction" :=
  claim_C4_trailing_data txMinimal txMinimalDecoded 5 (by decide)

/-- C4 counterexample: appending a byte to the valid transaction `txLegacy`
does NOT make v2's `parse_raw_components` fail — it succeeds, returning the
same components and leaving the 52nd byte unconsumed, because the decoder
never checks for trailing data after lock_time. -/
theorem claim_C4_counterexample :
    V2.parseRawComponentsCore (txLegacy ++ [0xab]) = .ok (txLegacyComps, 51) ∧
    (txLegacy ++ [0xab]).length = 52 ∧
    isOkE (SplitVerify.parse txLegacy) = true :=
  ⟨by decide, by decide, by decide⟩

theorem byteAtE_ok {bytes : List Nat} {i v : Nat} (h : V2.byteAtE bytes i = .ok v) :
    v = bytes.getD i 0 ∧ i < bytes.length := by
  unfold V2.byteAtE at h
  by_cases hb : i < bytes.length
  · rw [if_pos hb] at h; exact ⟨(Except.ok.inj h).symm, hb⟩
  · rw [if_neg hb] at h; exact absurd h (by simp)

theorem readVarint_ok_bound {bytes : List Nat} {off v w : Nat}
    (h : V2.readVarint bytes off = .ok (v, w)) : off + w ≤ bytes.length ∧ 1 ≤ w := by
  unfold V2.readVarint at h
  by_cases h0 : bytes.length ≤ off
  · rw [if_pos h0] at h; exact Except.noConfusion h
  · rw [if_neg h0] at h
    by_cases c1 : bytes.getD off 0 ≤ 0xfc
    · rw [if_pos c1] at h; cases h; omega
    · rw [if_neg c1] at h
      by_cases c2 : bytes.getD off 0 = 0xfd
      · rw [if_pos c2] at h
        by_cases d2 : bytes.length < off + 3
        · rw [if_pos d2] at h; exact Except.noConfusion h
        · rw [if_neg d2] at h; cases h; omega
      · rw [if_neg c2] at h
        by_cases c3 : bytes.getD off 0 = 0xfe
        · rw [if_pos c3] at h
          by_cases d3 : bytes.length < off + 5
          · rw [if_pos d3] at h; exact Except.noConfusion h
          · rw [if_neg d3] at h; cases h; omega
        · rw [if_neg c3] at h
          by_cases d4 : bytes.length < off + 9
          · rw [if_pos d4] at h; exact Except.noConfusion h
          · rw [if_neg d4] at h; cases h; omega

theorem readInputV2_rt {bytes : List Nat} {c0 : Nat} {inp : V2.RawInput} {c1 : Nat}
    (h : V2.readInputV2 bytes c0 = .ok (inp, c1)) :
    v2ReencodeInput inp = byteSlice bytes c0 c1 ∧ c0 ≤ c1 ∧ c1 ≤ bytes.length := by
  unfold V2.readInputV2 at h
  cases h1 : V2.sliceE bytes c0 (c0 + 32) with
  | error e => simp only [h1] at h; exact Except.noConfusion h
  | ok txb =>
    simp only [h1] at h
    cases h2 : V2.sliceE bytes (c0 + 32) (c0 + 36) with
    | error e => simp only [h2] at h; exact Except.noConfusion h
    | ok voutB =>
      simp only [h2] at h
      cases h3 : V2.readVarint bytes (c0 + 36) with
      | error e => simp only [h3] at h; exact Except.noConfusion h
      | ok p =>
        obtain ⟨sLen, sLenBytes⟩ := p
        simp only [h3] at h
        cases h4 : V2.sliceE bytes (c0 + 36) (c0 + 36 + sLenBytes) with
        | error e => simp only [h4] at h; exact Except.noConfusion h
        | ok sSize =>
          simp only [h4] at h
          cases h5 : (if 0 < sLen then
              V2.sliceE bytes (c0 + 36 + sLenBytes) (c0 + 36 + sLenBytes + sLen)
            else (.ok [] : Except V2.V2Error (List Nat))) with
          | error e => simp only [h5] at h; exact Except.noConfusion h
          | ok sSig =>
            simp only [h5] at h
            cases h6 : V2.sliceE bytes (c0 + 36 + sLenBytes + sLen)
                (c0 + 36 + sLenBytes + sLen + 4) with
            | error e => simp only [h6] at h; exact Except.noConfusion h
            | ok seqB =>
              simp only [h6] at h
              cases h
              obtain ⟨htx, hb1⟩ := sliceE_ok h1
              obtain ⟨hvout, hb2⟩ := sliceE_ok h2
              obtain ⟨hw3, hw1⟩ := readVarint_ok_bound h3
              obtain ⟨hssz, hb4⟩ := sliceE_ok h4
              obtain ⟨hseq, hb6⟩ := sliceE_ok h6
              have hsig : sSig = byteSlice bytes (c0 + 36 + sLenBytes)
                  (c0 + 36 + sLenBytes + sLen) := by
                by_cases hs : 0 < sLen
                · rw [if_pos hs] at h5
                  exact (sliceE_ok h5).1
                · rw [if_neg hs] at h5
                  have hz : sLen = 0 := by omega
                  subst hz
                  have : ([] : List Nat) = sSig := Except.ok.inj h5
                  rw [← this]
                  exact (byteSlice_refl bytes (c0 + 36 + sLenBytes)).symm
              refine ⟨?_, by omega, by omega⟩
              simp only [v2ReencodeInput]
              rw [htx, List.reverse_reverse, hvout, hssz, hsig, hseq]
              rw [byteSlice_split bytes (show c0 ≤ c0 + 32 by omega)
                    (show c0 + 32 ≤ c0 + 36 by omega),
                  byteSlice_split bytes (show c0 ≤ c0 + 36 by omega)
                    (show c0 + 36 ≤ c0 + 36 + sLenBytes by omega),
                  byteSlice_split bytes (show c0 ≤ c0 + 36 + sLenBytes by omega)
                    (show c0 + 36 + sLenBytes ≤ c0 + 36 + sLenBytes + sLen by omega),
                  byteSlice_split bytes (show c0 ≤ c0 + 36 + sLenBytes + sLen by omega)
                    (show c0 + 36 + sLenBytes + sLen ≤ c0 + 36 + sLenBytes + sLen + 4 by omega)]

theorem readInputsV2_rt {bytes : List Nat} :
    ∀ (n c : Nat) (r : List V2.RawInput × Nat),
      V2.readInputsV2 bytes n c = .ok r →
      (r.1.map v2ReencodeInput).flatten = byteSlice bytes c r.2 ∧ c ≤ r.2 := by
  intro n
  induction n with
  | zero =>
    intro c r h
    unfold V2.readInputsV2 at h
    cases h
    exact ⟨by simp [byteSlice_refl], Nat.le_refl c⟩
  | succ n ih =>
    intro c r h
    unfold V2.readInputsV2 at h
    cases k1 : V2.readInputV2 bytes c with
    | error e => simp only [k1] at h; exact Except.noConfusion h
    | ok p =>
      obtain ⟨inp, c'⟩ := p
      simp only [k1] at h
      cases k2 : V2.readInputsV2 bytes n c' with
      | error e => simp only [k2] at h; exact Except.noConfusion h
      | ok q =>
        obtain ⟨rest, c''⟩ := q
        simp only [k2] at h
        cases h
        obtain ⟨hi1, hi2, _⟩ := readInputV2_rt k1
        obtain ⟨hr1, hr2⟩ := ih c' (rest, c'') k2
        simp only at hr1 hr2 ⊢
        constructor
        · simp only [List.map_cons, List.flatten_cons]
          rw [hi1, hr1, byteSlice_split bytes hi2 hr2]
        · omega

theorem readOutputV2_rt {bytes : List Nat} {c0 : Nat} {out : V2.RawOutput} {c1 : Nat}
    (h : V2.readOutputV2 bytes c0 = .ok (out, c1)) :
    v2ReencodeOutput out = byteSlice bytes c0 c1 ∧ c0 ≤ c1 ∧ c1 ≤ bytes.length := by
  unfold V2.readOutputV2 at h
  cases h1 : V2.sliceE bytes c0 (c0 + 8) with
  | error e => simp only [h1] at h; exact Except.noConfusion h
  | ok amountB =>
    simp only [h1] at h
    cases h2 : V2.readVarint bytes (c0 + 8) with
    | error e => simp only [h2] at h; exact Except.noConfusion h
    | ok p =>
      obtain ⟨pLen, pLenBytes⟩ := p
      simp only [h2] at h
      cases h3 : V2.sliceE bytes (c0 + 8) (c0 + 8 + pLenBytes) with
      | error e => simp only [h3] at h; exact Except.noConfusion h
      | ok pSize =>
        simp only [h3] at h
        cases h4 : V2.sliceE bytes (c0 + 8 + pLenBytes) (c0 + 8 + pLenBytes + pLen) with
        | error e => simp only [h4] at h; exact Except.noConfusion h
        | ok pk =>
          simp only [h4] at h
          cases h
          obtain ⟨hamt, hb1⟩ := sliceE_ok h1
          obtain ⟨hw2, hw1⟩ := readVarint_ok_bound h2
          obtain ⟨hpsz, hb3⟩ := sliceE_ok h3
          obtain ⟨hpk, hb4⟩ := sliceE_ok h4
          refine ⟨?_, by omega, by omega⟩
          simp only [v2ReencodeOutput]
          rw [hamt, hpsz, hpk]
          rw [byteSlice_split bytes (show c0 ≤ c0 + 8 by omega)
                (show c0 + 8 ≤ c0 + 8 + pLenBytes by omega),
              byteSlice_split bytes (show c0 ≤ c0 + 8 + pLenBytes by omega)
                (show c0 + 8 + pLenBytes ≤ c0 + 8 + pLenBytes + pLen by omega)]

theorem readOutputsV2_rt {bytes : List Nat} :
    ∀ (n c : Nat) (r : List V2.RawOutput × Nat),
      V2.readOutputsV2 bytes n c = .ok r →
      (r.1.map v2ReencodeOutput).flatten = byteSlice bytes c r.2 ∧ c ≤ r.2 := by
  intro n
  induction n with
  | zero =>
    intro c r h
    unfold V2.readOutputsV2 at h
    cases h
    exact ⟨by simp [byteSlice_refl], Nat.le_refl c⟩
  | succ n ih =>
    intro c r h
    unfold V2.readOutputsV2 at h
    cases k1 : V2.readOutputV2 bytes c with
    | error e => simp only [k1] at h; exact Except.noConfusion h
    | ok p =>
      obtain ⟨out, c'⟩ := p
      simp only [k1] at h
      cases k2 : V2.readOutputsV2 bytes n c' with
      | error e => simp only [k2] at h; exact Except.noConfusion h
      | ok q =>
        obtain ⟨rest, c''⟩ := q
        simp only [k2] at h
        cases h
        obtain ⟨hi1, hi2, _⟩ := readOutputV2_rt k1
        obtain ⟨hr1, hr2⟩ := ih c' (rest, c'') k2
        simp only at hr1 hr2 ⊢
        constructor
        · simp only [List.map_cons, List.flatten_cons]
          rw [hi1, hr1, byteSlice_split bytes hi2 hr2]
        · omega

/-- C8 (amended): transaction_splitter.v2 stores input/output counts and
script sizes as the raw CompactSize bytes actually used, so for every
legacy transaction it fully consumes, re-encoding the decoded fields in
positional order reproduces the original bytes exactly; split_and_verify
stores only the decoded value hex-formatted, so its re-encoding loses the
width (see `claim_C8_counterexample`). -/
theorem claim_C8_legacy_roundtrip :
    ∀ (bytes : List Nat) (comps : V2.RawTransactionComponents) (n : Nat),
      V2.parseRawComponentsCore bytes = .ok (comps, n) →
      n = bytes.length → comps.marker = none →
      v2ReencodeLegacy comps = bytes := by
  intro bytes comps n hpc hn hmark
  unfold V2.parseRawComponentsCore at hpc
  cases k1 : V2.sliceE bytes 0 4 with
  | error e => simp only [k1] at hpc; exact Except.noConfusion hpc
  | ok versionB =>
    simp only [k1] at hpc
    cases k2 : V2.byteAtE bytes 4 with
    | error e => simp only [k2] at hpc; exact Except.noConfusion hpc
    | ok b4 =>
      simp only [k2] at hpc
      cases km : V2.readMarkerV2 bytes b4 with
      | error e => simp only [km] at hpc; exact Except.noConfusion hpc
      | ok pm =>
        obtain ⟨⟨marker, flag⟩, c1⟩ := pm
        simp only [km] at hpc
        cases k3 : V2.readVarint bytes c1 with
        | error e => simp only [k3] at hpc; exact Except.noConfusion hpc
        | ok p3 =>
          obtain ⟨icv, icb⟩ := p3
          simp only [k3] at hpc
          cases k4 : V2.sliceE bytes c1 (c1 + icb) with
          | error e => simp only [k4] at hpc; exact Except.noConfusion hpc
          | ok icRaw =>
            simp only [k4] at hpc
            cases k5 : V2.readInputsV2 bytes icv (c1 + icb) with
            | error e => simp only [k5] at hpc; exact Except.noConfusion hpc
            | ok p5 =>
              obtain ⟨inputs, c2⟩ := p5
              simp only [k5] at hpc
              cases k6 : V2.readVarint bytes c2 with
              | error e => simp only [k6] at hpc; exact Except.noConfusion hpc
              | ok p6 =>
                obtain ⟨ocv, ocb⟩ := p6
                simp only [k6] at hpc
                cases k7 : V2.sliceE bytes c2 (c2 + ocb) with
                | error e => simp only [k7] at hpc; exact Except.noConfusion hpc
                | ok ocRaw =>
                  simp only [k7] at hpc
                  cases k8 : V2.readOutputsV2 bytes ocv (c2 + ocb) with
                  | error e => simp only [k8] at hpc; exact Except.noConfusion hpc
                  | ok p8 =>
                    obtain ⟨outputs, c3⟩ := p8
                    simp only [k8] at hpc
                    cases kw : (if b4 = 0 then V2.readWitnessesV2 bytes icv c3
                        else (.ok ([], c3) : Except V2.V2Error (List V2.RawWitness × Nat))) with
                    | error e => simp only [kw] at hpc; exact Except.noConfusion hpc
                    | ok pw =>
                      obtain ⟨witnessL, c4⟩ := pw
                      simp only [kw] at hpc
                      cases k9 : V2.sliceE bytes c4 (c4 + 4) with
                      | error e => simp only [k9] at hpc; exact Except.noConfusion hpc
                      | ok lockB =>
                        simp only [k9] at hpc
                        cases hpc
                        simp only at hmark
                        have hb4 : ¬ b4 = 0 := by
                          intro hb0
                          unfold V2.readMarkerV2 at km
                          rw [if_pos hb0] at km
                          cases kb5 : V2.byteAtE bytes 5 with
                          | error e => simp only [kb5] at km; exact Except.noConfusion km
                          | ok b5 =>
                            simp only [kb5] at km
                            have hkm := Except.ok.inj km
                            simp only [Prod.mk.injEq] at hkm
                            obtain ⟨⟨hm, _⟩, _⟩ := hkm
                            rw [hmark] at hm
                            exact Option.noConfusion hm
                        have hc1 : c1 = 4 := by
                          unfold V2.readMarkerV2 at km
                          rw [if_neg hb4] at km
                          have hkm := Except.ok.inj km
                          simp only [Prod.mk.injEq] at hkm
                          exact hkm.2.symm
                        subst hc1
                        rw [if_neg hb4] at kw
                        have hkw := Except.ok.inj kw
                        simp only [Prod.mk.injEq] at hkw
                        obtain ⟨_, hc4⟩ := hkw
                        obtain ⟨hver, hbv⟩ := sliceE_ok k1
                        obtain ⟨hicb, hic1⟩ := readVarint_ok_bound k3
                        obtain ⟨hicr, hbic⟩ := sliceE_ok k4
                        obtain ⟨hin1, hin2⟩ := readInputsV2_rt icv (4 + icb) (inputs, c2) k5
                        obtain ⟨hocb, hoc1⟩ := readVarint_ok_bound k6
                        obtain ⟨hocr, hboc⟩ := sliceE_ok k7
                        obtain ⟨hout1, hout2⟩ := readOutputsV2_rt ocv (c2 + ocb) (outputs, c3) k8
                        obtain ⟨hlock, hblock⟩ := sliceE_ok k9
                        simp only at hin1 hin2 hout1 hout2
                        subst hc4
                        simp only [v2ReencodeLegacy]
                        rw [hver, hicr, hin1, hocr, hout1, hlock]
                        rw [byteSlice_split bytes (show (0 : Nat) ≤ 4 by omega)
                              (show 4 ≤ 4 + icb by omega),
                            byteSlice_split bytes (show (0 : Nat) ≤ 4 + icb by omega) hin2,
                            byteSlice_split bytes (show (0 : Nat) ≤ c2 by omega)
                              (show c2 ≤ c2 + ocb by omega),
                            byteSlice_split bytes (show (0 : Nat) ≤ c2 + ocb by omega) hout2,
                            byteSlice_split bytes (show (0 : Nat) ≤ c3 by omega)
                              (show c3 ≤ c3 + 4 by omega)]
                        have hfin : c3 + 4 = bytes.length := by omega
                        rw [hfin, byteSlice_all]

/-- C8 witness: `claim_C8_legacy_roundtrip` on the concrete legacy
transaction `txLegacy` and its decoded components. -/
theorem claim_C8_legacy_roundtrip_witness :
    v2ReencodeLegacy txLegacyComps = txLegacy :=
  claim_C8_legacy_roundtrip txLegacy txLegacyComps 51 (by decide) (by decide) (by decide)

/-- C8 counterexample: split_and_verify does not retain the raw CompactSize
encoding — on `txWideSize`, whose scriptsig length 5 is wire-encoded as
`fd 05 00` (3 bytes, at offsets 41..43), it stores only "05", and the
positional re-encoding of its decoded fields does not reproduce the
original bytes. -/
theorem claim_C8_counterexample :
    isOkE (SplitVerify.parse txWideSize) = true ∧
    Except.map (fun tx => tx.inputs.map SplitVerify.Input.scriptsigsize)
        (SplitVerify.parse txWideSize) = .ok ["05"] ∧
    hexEncode (byteSlice txWideSize 41 44) = "fd0500" ∧
    Except.map svReencodeLegacy (SplitVerify.parse txWideSize)
      ≠ .ok (hexEncode txWideSize) :=
  ⟨by decide, by decide, by decide, by decide⟩
